import Mathlib

/-!
Verification development for the pending-to-committed changelog
synchronization pipeline
(`alpha_beta_command_center/JiraIssueCreation/process_changelog_to_jira.py`
together with `jira_connector.py`).

Strings are modelled as `List Char` (`LC`): Python text files are read
whole as strings, and the pipeline manipulates them only through find,
slice, split, strip, lower/upper/capitalize, and concatenation, all of
which are character-wise on the ASCII data involved.  The operator's
console is modelled as an unbounded stream `Nat → LC` of answers with an
explicit cursor (every `input()` call consumes exactly one element); the
end-of-file paths of the script (operator stream closed) are outside this
model.  The Jira tracker is modelled by a record of response functions
matching the `JiraConnector` methods used by the script; those methods
catch all exceptions internally and return a neutral value (empty list,
`None`, `False`), so they are total functions here.
-/

namespace ChangelogPipeline

abbrev LC := List Char

/-- Python whitespace characters recognised by `str.strip()` (ASCII range). -/
def isPySpace (c : Char) : Bool :=
  c = ' ' || c = '\t' || c = '\n' || c = '\r' || c = '\x0b' || c = '\x0c'

/-- Python `str.strip()`: drop leading and trailing whitespace
(`List.rdropWhile p l` is `(l.reverse.dropWhile p).reverse`). -/
def pyStrip (s : LC) : LC :=
  (s.dropWhile isPySpace).rdropWhile isPySpace

/-- Python `str.lower()` (ASCII). -/
def pyLower (s : LC) : LC := s.map Char.toLower

/-- Python `str.upper()` (ASCII). -/
def pyUpper (s : LC) : LC := s.map Char.toUpper

/-- Python `str.capitalize()` (ASCII): first character uppercased, the rest
lowercased. -/
def pyCapitalize (s : LC) : LC :=
  match s with
  | [] => []
  | c :: t => c.toUpper :: t.map Char.toLower

/-- Leftmost occurrence search, Python `str.find` (as `Option`):
`findSub pat xs = some i` iff the first occurrence of `pat` in `xs`
starts at index `i`. -/
def findSub (pat : LC) (xs : LC) : Option Nat :=
  if pat.isPrefixOf xs then some 0
  else
    match xs with
    | [] => none
    | _ :: t => (findSub pat t).map (· + 1)

/-- `Occurs pat xs`: `pat` occurs in `xs` as a contiguous substring. -/
def Occurs (pat xs : LC) : Prop := ∃ s t, s ++ pat ++ t = xs

theorem isPrefixOf_iff {l₁ l₂ : LC} :
    l₁.isPrefixOf l₂ = true ↔ ∃ t, l₁ ++ t = l₂ := by
  induction l₁ generalizing l₂ with
  | nil => simp [List.isPrefixOf]
  | cons a l ih =>
    cases l₂ with
    | nil => simp [List.isPrefixOf]
    | cons b m =>
      simp only [List.isPrefixOf, Bool.and_eq_true, beq_iff_eq, ih,
        List.cons_append, List.cons.injEq]
      constructor
      · rintro ⟨rfl, t, rfl⟩; exact ⟨t, rfl, rfl⟩
      · rintro ⟨t, rfl, rfl⟩; exact ⟨rfl, t, rfl⟩

theorem isPrefixOf_drop_iff {pat xs : LC} {i : Nat} :
    pat.isPrefixOf (xs.drop i) = true ↔ ∃ t, pat ++ t = xs.drop i :=
  isPrefixOf_iff

/-- Characterisation of `findSub`: it returns the leftmost index at which
`pat` is a prefix of the remaining text. -/
theorem findSub_eq_some_iff {pat xs : LC} {i : Nat} :
    findSub pat xs = some i ↔
      (pat.isPrefixOf (xs.drop i) = true ∧
        ∀ j < i, pat.isPrefixOf (xs.drop j) = false) := by
  induction xs generalizing i with
  | nil =>
    rw [findSub]
    by_cases h : pat.isPrefixOf ([] : LC) = true
    · simp only [h, if_true]
      constructor
      · rintro h'; cases h'
        exact ⟨by simpa using h, by omega⟩
      · rintro ⟨h₁, h₂⟩
        rcases Nat.eq_zero_or_pos i with rfl | hpos
        · rfl
        · have := h₂ 0 hpos; simp only [List.drop_nil] at this
          rw [h] at this; cases this
    · rw [if_neg h]
      constructor
      · rintro ⟨⟩
      · rintro ⟨h₁, _⟩
        simp only [List.drop_nil] at h₁
        simp [h₁] at h
  | cons a t ih =>
    rw [findSub]
    by_cases h : pat.isPrefixOf (a :: t) = true
    · simp only [if_pos h]
      constructor
      · rintro h'; cases h'
        exact ⟨by simpa using h, by omega⟩
      · rintro ⟨h₁, h₂⟩
        rcases Nat.eq_zero_or_pos i with rfl | hpos
        · rfl
        · have := h₂ 0 hpos; simp only [List.drop_zero] at this
          rw [h] at this; cases this
    · simp only [if_neg h, Option.map_eq_some']
      constructor
      · rintro ⟨j, hj, rfl⟩
        rcases ih.mp hj with ⟨h₁, h₂⟩
        refine ⟨by simpa using h₁, ?_⟩
        intro k hk
        cases k with
        | zero => simpa using (Bool.not_eq_true _).mp h
        | succ k' =>
          have : k' < j := by omega
          simpa using h₂ k' this
      · rintro ⟨h₁, h₂⟩
        cases i with
        | zero =>
          simp only [List.drop_zero] at h₁
          rw [h₁] at h; cases h rfl
        | succ i' =>
          refine ⟨i', ih.mpr ⟨by simpa using h₁, ?_⟩, rfl⟩
          intro j hj
          have := h₂ (j + 1) (by omega)
          simpa using this

theorem findSub_eq_none_iff {pat xs : LC} :
    findSub pat xs = none ↔ ∀ j, pat.isPrefixOf (xs.drop j) = false := by
  induction xs with
  | nil =>
    rw [findSub]
    by_cases h : pat.isPrefixOf ([] : LC) = true
    · simp only [if_pos h]
      constructor
      · rintro ⟨⟩
      · intro h'
        have := h' 0
        simp only [List.drop_nil] at this
        rw [h] at this; cases this
    · rw [if_neg (by simpa using h)]
      simp only [true_iff]
      intro j
      simpa [List.drop_nil] using (Bool.not_eq_true _).mp h
  | cons a t ih =>
    rw [findSub]
    by_cases h : pat.isPrefixOf (a :: t) = true
    · rw [if_pos h]
      constructor
      · rintro ⟨⟩
      · intro h'
        have := h' 0
        simp only [List.drop_zero] at this
        rw [h] at this; cases this
    · simp only [if_neg h, Option.map_eq_none', ih]
      constructor
      · intro h' j
        cases j with
        | zero => simpa using (Bool.not_eq_true _).mp h
        | succ j' => simpa using h' j'
      · intro h' j
        simpa using h' (j + 1)

theorem isPrefixOf_length_le {l₁ l₂ : LC} (h : l₁.isPrefixOf l₂ = true) :
    l₁.length ≤ l₂.length := by
  rcases isPrefixOf_iff.mp h with ⟨t, rfl⟩
  simp

theorem findSub_bound {pat xs : LC} {i : Nat} (h : findSub pat xs = some i) :
    i + pat.length ≤ xs.length := by
  induction xs generalizing i with
  | nil =>
    rw [findSub] at h
    by_cases hp : pat.isPrefixOf ([] : LC) = true
    · rw [if_pos hp] at h
      cases h
      simpa using isPrefixOf_length_le hp
    · rw [if_neg hp] at h; cases h
  | cons a t ih =>
    rw [findSub] at h
    by_cases hp : pat.isPrefixOf (a :: t) = true
    · rw [if_pos hp] at h
      cases h
      simpa using isPrefixOf_length_le hp
    · rw [if_neg hp] at h
      rcases Option.map_eq_some'.mp h with ⟨j, hj, rfl⟩
      have := ih hj
      simp only [List.length_cons]
      omega

theorem occurs_iff_exists_drop {pat xs : LC} :
    Occurs pat xs ↔ ∃ i, pat.isPrefixOf (xs.drop i) = true := by
  constructor
  · rintro ⟨s, t, rfl⟩
    refine ⟨s.length, ?_⟩
    rw [List.append_assoc, List.drop_left]
    exact isPrefixOf_iff.mpr ⟨t, rfl⟩
  · rintro ⟨i, hi⟩
    rcases isPrefixOf_iff.mp hi with ⟨t, ht⟩
    exact ⟨xs.take i, t, by rw [List.append_assoc, ht, List.take_append_drop]⟩

theorem findSub_none_iff_not_occurs {pat xs : LC} :
    findSub pat xs = none ↔ ¬ Occurs pat xs := by
  rw [findSub_eq_none_iff, occurs_iff_exists_drop]
  constructor
  · rintro h ⟨i, hi⟩
    rw [h i] at hi; cases hi
  · intro h j
    by_contra hc
    exact h ⟨j, (Bool.not_eq_false _).mp hc⟩

/-! ### File format: separator, template marker, split and partition -/

/-- `ENTRY_SEPARATOR = "---\n"` ("'---' on its own line"). -/
def sepL : LC := ['-', '-', '-', '\n']

/-- `ENTRY_SEPARATOR.strip() = "---"`. -/
def threeDash : LC := ['-', '-', '-']

/-- `TEMPLATE_END_MARKER = "<!-- END TEMPLATE -->"`. -/
def markerL : LC := "<!-- END TEMPLATE -->".data

/-- Python `content.split(ENTRY_SEPARATOR)`, with explicit structural fuel
so that the definition evaluates by kernel reduction: every recursive step
consumes at least the separator's four characters, so any fuel of at least
the input length computes the full split (`splitSepF_ge`). -/
def splitSepF : Nat → LC → List LC
  | 0, xs => [xs]
  | fuel + 1, xs =>
    match findSub sepL xs with
    | none => [xs]
    | some i => xs.take i :: splitSepF fuel (xs.drop (i + sepL.length))

/-- Python `content.split(ENTRY_SEPARATOR)`: split on every occurrence of
the separator, leftmost first; pieces never contain the separator. -/
def splitSep (xs : LC) : List LC := splitSepF xs.length xs

/-- The template partition of `main` (lines 451-469): find the literal end
marker; if present, find the first separator after it — template is
everything up to and including that separator.  If the marker exists but no
separator follows, the template extends over the marker plus any
immediately following newline run (with a final newline ensured on the
template only).  If there is no marker, there is no template. -/
def partitionLog (c : LC) : LC × LC :=
  match findSub markerL c with
  | none => ([], c)
  | some m =>
    let am := m + markerL.length
    match findSub sepL (c.drop am) with
    | some j => (c.take (am + j + sepL.length), c.drop (am + j + sepL.length))
    | none =>
      let k := ((c.drop am).takeWhile (fun x => x = '\n')).length
      let t := c.take (am + k)
      (if t.getLast? = some '\n' then t else t ++ ['\n'], c.drop (am + k))

/-- `main` line 477: split the entry content on the separator, strip each
piece, and keep the non-empty ones — the pending entry texts. -/
def splitEntries (p : LC) : List LC :=
  ((splitSep p).map pyStrip).filter (fun e => !e.isEmpty)

/-! ### The two end-of-run rewrites of the pending log -/

/-- Apostrophe, kept out of string literals. -/
def sq : Char := Char.ofNat 39

def noPendingLine : LC := "# No pending entries remaining.\n".data

/-- The fresh replacement template written by the first rewrite when neither
a template nor remaining entries exist (`main`, lines 581-595). -/
def freshTemplate (user : LC) : LC :=
  "# Add ".data ++ user ++
    (sq :: "s pending changelog entries here, separated by ".data) ++
    [sq] ++ threeDash ++ [sq, '\n'] ++
  "# Template for ".data ++ user ++ ":\n".data ++
  "<!-- TEMPLATE - DO NOT PROCESS -->\n".data ++
  sepL ++ ['\n'] ++
  "# **Draft Summary:** My New Feature for ".data ++ user ++ ['\n'] ++
  "# **Type:** Story\n".data ++
  "# **User:** ".data ++ user ++ ['\n'] ++
  "# **Description:**\n".data ++
  "# As a user, I want this feature so that I can achieve a goal.\n#\n".data ++
  "# **Acceptance Criteria:**\n".data ++
  "# - Criteria 1\n".data ++
  "# - Criteria 2\n".data ++
  sepL ++ "<!-- END TEMPLATE -->\n".data

/-- Python `ENTRY_SEPARATOR.join(remaining)`. -/
def joinSep : List LC → LC
  | [] => []
  | [e] => e
  | e :: rest => e ++ sepL ++ joinSep rest

/-- Content written by the first end-of-run rewrite of the pending log
(`main`, lines 563-596): template (with a conditional extra newline), then
the separator-joined remaining entries with the full separator ensured at
the end, or a fresh template when there is neither a template nor entries. -/
def rewrite1 (t : LC) (remaining : List LC) (user : LC) : LC :=
  (if t ≠ [] then
      t ++ (if remaining ≠ [] ∧ (pyStrip t).getLast? ≠ some '\n' ∧
              threeDash.isSuffixOf (pyStrip t) = false ∧ t.getLast? ≠ some '\n'
            then ['\n'] else [])
    else []) ++
  (if remaining ≠ [] then
      (joinSep remaining) ++
        (if sepL.isSuffixOf (joinSep remaining) then []
          else sepL)
    else if t = [] then freshTemplate user else [])

/-- Content written by the second (final) end-of-run rewrite of the pending
log (`main`, lines 616-656): template, then either the separator-joined
remaining entries (with a trailing separator appended unless the joined
text already ends in `"---"`), or — when no entries remain — the
`# No pending entries remaining.` line, with a newline ensured after a
non-blank template. -/
def rewrite2 (t : LC) (remaining : List LC) : LC :=
  t ++
  (if remaining ≠ [] then
      (joinSep remaining) ++
        (if t.length + (joinSep remaining).length ≠ t.length
          then
            (if threeDash.isSuffixOf (joinSep remaining) then []
              else sepL)
          else [])
    else if pyStrip t ≠ [] then
      (if t.getLast? = some '\n' then [] else ['\n']) ++ noPendingLine
    else noPendingLine)

/-- The sequence of `f_pending.write(...)` calls performed by the second
rewrite, in order.  The rewrite opens the pending log with mode `"w"`
(truncate in place) and issues these writes directly to it; there is no
temporary file and no atomic replace in the source. -/
def rewrite2Chunks (t : LC) (remaining : List LC) : List LC :=
  [t] ++
  (if remaining ≠ [] then
      [joinSep remaining] ++
        (if t.length + (joinSep remaining).length ≠ t.length
          then
            (if threeDash.isSuffixOf (joinSep remaining) then []
              else [sepL])
          else [])
    else if pyStrip t ≠ [] then
      (if t.getLast? = some '\n' then [] else [['\n']]) ++ [noPendingLine]
    else [noPendingLine])

/-- File content if the process crashes after `k` of the writes of an
in-place truncating rewrite have reached the file: `open(path, "w")`
truncates immediately, so the content is the concatenation of the first `k`
chunks. -/
def contentAfterWrites (chunks : List LC) (k : Nat) : LC :=
  (chunks.take k).flatten

/-- Text appended to the committed log (`main`, lines 539-547): each
committed entry string followed by one extra newline.  The file is only
opened when the list is non-empty. -/
def committedAppendText (commits : List LC) : LC :=
  (commits.map (fun r => r ++ ['\n'])).flatten

/-! ### Entry parser (`parse_pending_entry`, lines 78-120) -/

structure EntryData where
  draft_summary : LC
  typeField : Option LC
  userField : Option LC
  descriptionField : Option LC
  acceptanceField : Option LC
deriving DecidableEq

/-- Index of the leftmost case-insensitive occurrence of `pat` in `xs`
(`re.IGNORECASE`); ASCII lowering is index-preserving. -/
def findSubCI (pat xs : LC) : Option Nat := findSub (pyLower pat) (pyLower xs)

/-- After a matched field label: the patterns allow an optional `**`
directly after the label, then greedy `\s*` (which crosses newlines), then
capture to end of line (`.` stops at a newline); the callers strip the
captured group. -/
def captureToEOL (rest : LC) : LC :=
  let r1 := if ("**".data).isPrefixOf rest then rest.drop 2 else rest
  let r2 := r1.dropWhile isPySpace
  pyStrip (r2.takeWhile (fun c => c ≠ '\n'))

/-- `re.search(r"(?:\*\*)?<Label>(?:\*\*)?\s*(.*)", text, re.IGNORECASE)`
followed by `.strip()`: the leading optional `**` moves only the match
start, not the captured group. -/
def searchLabelLine (label xs : LC) : Option LC :=
  match findSubCI label xs with
  | none => none
  | some i => some (captureToEOL (xs.drop (i + label.length)))

/-- Description extraction (lines 100-109): the main pattern captures
lazily between `Description:(?:\*\*)?` and the earliest following
`(?:\*\*)?Acceptance Criteria:`; when no acceptance label follows the
description label the fallback pattern captures to the end of the block
(its inner split on an acceptance label can then never match). -/
def extractDescription (xs : LC) : Option LC :=
  match findSubCI "description:".data xs with
  | none => none
  | some i =>
    let body0 := xs.drop (i + ("description:".data).length)
    let body := if ("**".data).isPrefixOf body0 then body0.drop 2 else body0
    match findSubCI "acceptance criteria:".data body with
    | some j =>
      some (pyStrip (body.take
        (if 2 ≤ j ∧ ("**".data).isPrefixOf (body.drop (j - 2)) then j - 2
          else j)))
    | none => some (pyStrip body)

/-- Line 112's pattern places the optional `**` between the words and the
colon: leftmost case-insensitive `Acceptance Criteria`, then optional `**`,
then a colon; a colon-less occurrence makes the engine move to the next
one.  Returns the text after the colon. -/
def findACFieldF : Nat → LC → Option LC
  | 0, _ => none
  | fuel + 1, xs =>
    match findSubCI "acceptance criteria".data xs with
    | none => none
    | some i =>
      let after := xs.drop (i + ("acceptance criteria".data).length)
      if (":".data).isPrefixOf after then some (after.drop 1)
      else if ("**:".data).isPrefixOf after then some (after.drop 3)
      else findACFieldF fuel (xs.drop (i + 1))

def findACField (xs : LC) : Option LC := findACFieldF xs.length xs

/-- `parse_pending_entry`: extract the labelled fields; a missing or empty
`Draft Summary` is a parse failure (the empty dict in Python). -/
def parsePendingEntry (xs : LC) : Option EntryData :=
  match searchLabelLine "draft summary:".data xs with
  | none => none
  | some s =>
    if s = [] then none
    else some {
      draft_summary := s
      typeField := searchLabelLine "type:".data xs
      userField := searchLabelLine "user:".data xs
      descriptionField := extractDescription xs
      acceptanceField := (findACField xs).map pyStrip }

/-! ### Tracker environment and the per-entry state machine -/

structure Epic where
  key : LC
  summary : LC
deriving DecidableEq

structure Version where
  id : LC
  name : LC
deriving DecidableEq

structure Story where
  key : LC
  summary : LC
deriving DecidableEq

structure Transition where
  id : LC
  name : LC
deriving DecidableEq

/-- The issue dictionary `create_jira_issue` builds (`jira_connector.py`
lines 294-314).  The pipeline calls the method with
`issue_type_name=issue_type` but never passes the separate `issue_type`
parameter, so the dictionary's `issuetype` field is always that parameter's
default `"Story"`; `issue_type_name` only appears in log messages. -/
structure IssueDict where
  project : LC
  summary : LC
  description : LC
  issuetype : LC
  reporter : LC
  assignee : LC
  epicLink : Option LC
deriving DecidableEq

/-- The epic dictionary `create_jira_epic` builds (lines 345-375):
description and fix versions only when truthy, fixed components. -/
structure EpicDict where
  project : LC
  name : LC
  description : Option LC
  fixVersions : Option (List LC)
  components : List LC
  reporter : LC
  assignee : LC
deriving DecidableEq

/-- Responses of the Jira tracker, one field per `JiraConnector` method the
pipeline uses.  Those methods wrap every client call in `try/except` and
return a neutral value on failure, so the list-returning ones are total
functions; creation returns `none` on failure (an exception inside the
connector and a missing key both surface as `None` at this boundary).  The
two raw client calls inside `transition_jira_issue` are modelled with
`Except Unit` because that method distinguishes them internally. -/
structure TrackerEnv where
  projectEpics : List Epic
  projectVersions : List Version
  createEpicResult : EpicDict → Option LC
  storiesInEpic : LC → List Story
  transitionsResult : LC → Except Unit (List Transition)
  executeTransitionResult : LC → LC → Except Unit Unit

/-- `get_user_input` (lines 63-76): strip the raw response; with a default,
`confirm` (case-insensitive) or an empty answer yields the default. -/
def getUserInputVal (raw : LC) (dflt : Option LC) : LC :=
  let r := pyStrip raw
  match dflt with
  | some d =>
    if pyLower r = "confirm".data then d else if r = [] then d else r
  | none => r

/-- Python `int(...)` on an already-stripped string: optional sign then
decimal digits (underscore digit grouping is not modelled). -/
def digitsVal (ds : LC) : Option Nat :=
  if ds = [] then none
  else if ds.all Char.isDigit then
    some (ds.foldl (fun a c => a * 10 + (c.toNat - 48)) 0)
  else none

def parsePyInt (s : LC) : Option Int :=
  match s with
  | '+' :: rest => (digitsVal rest).map Int.ofNat
  | '-' :: rest => (digitsVal rest).map (fun n => -(Int.ofNat n))
  | _ => (digitsVal s).map Int.ofNat

/-- Python `str.split(',')`. -/
def splitComma : LC → List LC
  | [] => [[]]
  | c :: t =>
    if c = ',' then [] :: splitComma t
    else
      match splitComma t with
      | [] => [[c]]
      | h :: r => (c :: h) :: r

/-- `[int(x.strip()) - 1 for x in s.split(',')]`; a `ValueError` anywhere
invalidates the whole input (line 214). -/
def parseSelection (s : LC) : Option (List Int) :=
  (splitComma s).mapM (fun x => (parsePyInt (pyStrip x)).map (fun v => v - 1))

/-- Bounds-check the selected indices against the version list, collecting
names; any out-of-range index invalidates the whole selection
(lines 204-213). -/
def pickVersions (versions : List Version) : List Int → Option (List LC)
  | [] => some []
  | idx :: rest =>
    if h : 0 ≤ idx ∧ idx < (versions.length : Int) then
      (pickVersions versions rest).map
        (fun ns => (versions.get ⟨idx.toNat, by omega⟩).name :: ns)
    else none

/-- The fix-version selection loop for a new epic (lines 195-215); each
iteration consumes one operator answer, fuel bounds the re-prompts. -/
def versionLoop (versions : List Version) (inputs : Nat → LC) :
    Nat → Nat → Option (Option (List LC) × Nat)
  | 0, _ => none
  | fuel + 1, n =>
    let sel := pyLower (getUserInputVal (inputs n) none)
    if sel = [] ∨ sel = "none".data then some (none, n + 1)
    else
      match parseSelection sel with
      | none => versionLoop versions inputs fuel (n + 1)
      | some idxs =>
        match pickVersions versions idxs with
        | some names => some (some names, n + 1)
        | none => versionLoop versions inputs fuel (n + 1)

/-- The `create_jira_epic` call as the pipeline makes it: project `ROIA`,
components `['FeatureCentral']`, the operator as reporter and assignee,
description and fix versions included only when truthy (the connector's
own truthiness checks, lines 352-359). -/
def createEpic (env : TrackerEnv) (user name desc : LC)
    (fixVersions : Option (List LC)) : Option LC :=
  env.createEpicResult {
    project := "ROIA".data
    name := name
    description := if desc = [] then none else some desc
    fixVersions :=
      match fixVersions with
      | some l => if l = [] then none else some l
      | none => none
    components := ["FeatureCentral".data]
    reporter := user
    assignee := user }

/-- The create-new-epic flow (lines 178-239): name (empty aborts straight
to no-epic), optional description, fix-version selection (interactive when
versions are available, free text otherwise), then the creation call. -/
def newEpicFlow (env : TrackerEnv) (user : LC) (fuel : Nat)
    (inputs : Nat → LC) (n : Nat) : Option ((Option LC × LC) × Nat) :=
  let name := getUserInputVal (inputs n) none
  if name = [] then some ((none, "N/A".data), n + 1)
  else
    let desc := getUserInputVal (inputs (n + 1)) none
    let fvStep : Option (Option (List LC) × Nat) :=
      if env.projectVersions ≠ [] then
        versionLoop env.projectVersions inputs fuel (n + 2)
      else
        let s := getUserInputVal (inputs (n + 2)) none
        some ((if s = [] then none
                else some (((splitComma s).map pyStrip).filter
                  (fun x => !x.isEmpty))), n + 3)
    match fvStep with
    | none => none
    | some (fv, n') =>
      match createEpic env user name desc fv with
      | some key => some ((some key, name), n')
      | none => some ((none, "N/A".data), n')

/-- The epic selection loop (lines 175-255): `N` creates a new epic,
`none` skips linking, a number selects by index with bounds check and
re-prompt on anything invalid. -/
def epicSelectLoop (env : TrackerEnv) (user : LC) (epics : List Epic)
    (inputs : Nat → LC) : Nat → Nat → Option ((Option LC × LC) × Nat)
  | 0, _ => none
  | fuel + 1, n =>
    let choice := pyUpper (getUserInputVal (inputs n) (some "N".data))
    if choice = "N".data then newEpicFlow env user fuel inputs (n + 1)
    else if pyLower choice = "none".data then some ((none, "N/A".data), n + 1)
    else
      match parsePyInt choice with
      | none => epicSelectLoop env user epics inputs fuel (n + 1)
      | some v =>
        if h : 0 ≤ v - 1 ∧ v - 1 < (epics.length : Int) then
          some ((some (epics.get ⟨(v - 1).toNat, by omega⟩).key,
                  (epics.get ⟨(v - 1).toNat, by omega⟩).summary), n + 1)
        else epicSelectLoop env user epics inputs fuel (n + 1)

/-- The epic-handling phase (lines 163-284).  The `except` handler there is
reachable only through an operator end-of-file, which the unbounded-stream
model excludes, so the phase always yields an `(epic key?, epic name)`
pair; `none` models only non-settlement of a re-prompt loop within the
given fuel. -/
def epicPhase (env : TrackerEnv) (user : LC) (fuel : Nat)
    (inputs : Nat → LC) (n : Nat) : Option ((Option LC × LC) × Nat) :=
  if env.projectEpics ≠ [] then
    epicSelectLoop env user env.projectEpics inputs fuel n
  else
    let ans := pyLower (getUserInputVal (inputs n) (some "yes".data))
    if ans = "yes".data then
      let name := getUserInputVal (inputs (n + 1)) none
      if name ≠ [] then
        let desc := getUserInputVal (inputs (n + 2)) none
        match createEpic env user name desc none with
        | some key => some ((some key, name), n + 3)
        | none => some ((none, "N/A".data), n + 3)
      else some ((none, "N/A".data), n + 2)
    else some ((none, "N/A".data), n + 1)

/-- The duplicate check (lines 286-311): only with a linked epic; flags
exactly the existing issues under the epic whose summary equals the entry's
summary case-insensitively; on a hit the operator decides (default `no`). -/
def dupPhase (env : TrackerEnv) (summary : LC) (epicKey : Option LC)
    (inputs : Nat → LC) (n : Nat) : Bool × Nat :=
  match epicKey with
  | none => (true, n)
  | some ek =>
    let issues := env.storiesInEpic ek
    if issues ≠ [] then
      if issues.filter (fun s => pyLower s.summary == pyLower summary) ≠ []
      then
        (pyLower (getUserInputVal (inputs n) (some "no".data)) = "yes".data,
          n + 1)
      else (true, n)
    else (true, n)

/-- `str.__contains__`, Python `in`. -/
def containsSub (pat xs : LC) : Bool := (findSub pat xs).isSome

/-- `JiraConnector.transition_jira_issue` (lines 415-452): list the issue's
transitions, take the first whose name contains the target name
case-insensitively as a substring, and execute it; any failure (listing
raised, no match found, execution raised) yields `False`. -/
def transition_jira_issue (env : TrackerEnv) (issueKey target : LC) :
    Bool :=
  match env.transitionsResult issueKey with
  | Except.error _ => false
  | Except.ok ts =>
    match ts.find? (fun t => containsSub (pyLower target) (pyLower t.name))
    with
    | none => false
    | some t =>
      match env.executeTransitionResult issueKey t.id with
      | Except.ok _ => true
      | Except.error _ => false

/-- Lines 141-145: `entry_data.get('type', 'Story').capitalize()`, kept
only when it is exactly `'Story'` or `'Bug'`, otherwise coerced to
`'Story'`; the Bool records whether the unsupported-type warning fired. -/
def determineIssueType (typeField : Option LC) : LC × Bool :=
  let it := pyCapitalize (typeField.getD ("Story".data))
  if it = "Story".data ∨ it = "Bug".data then (it, false)
  else ("Story".data, true)

def defaultDescription : LC := "Description to be added.".data

def defaultAcceptance : LC := "- Acceptance criteria to be added.".data

/-- Line 314: the composed Jira description body. -/
def jiraDescriptionBody (desc ac : LC) : LC :=
  desc ++ "\n\n## Acceptance Criteria\n".data ++ ac

/-- The issue dictionary for the pipeline's creation call (lines 318-326
composed with the connector): `issuetype` is the connector default
`"Story"` because the pipeline only sets `issue_type_name`. -/
def mkIssueDict (summary desc ac user : LC) (epicKey : Option LC) :
    IssueDict :=
  { project := "ROIA".data
    summary := summary
    description := jiraDescriptionBody desc ac
    issuetype := "Story".data
    reporter := user
    assignee := user
    epicLink := epicKey }

/-- The committed changelog block for one created issue (lines 346-356). -/
def committedEntryStr (epicName : LC) (epicKey : Option LC)
    (issueType newIssueKey summary status desc ac : LC) : LC :=
  "## Epic: ".data ++ epicName ++ " [".data ++
    (match epicKey with | some k => k | none => "N/A".data) ++
    "]\n\n### ".data ++ issueType ++ ": ".data ++ newIssueKey ++
    " - ".data ++ summary ++ " (Status: ".data ++ status ++
    ")\n\n**Description:**\n".data ++ desc ++
    "\n\n## Acceptance Criteria\n".data ++ ac ++ "\n---\n".data

/-- Creation and transition (lines 313-358): a missing key retains the
entry with `(False, None)`; otherwise the new issue is transitioned toward
`"Done"` best-effort, the recorded status falling back to `"Open"` on
failure, and the committed entry string is emitted with `(True, ...)`. -/
def creationPhase (data : EntryData) (env : TrackerEnv)
    (createIssue : IssueDict → Option LC) (user issueType : LC)
    (epicKey : Option LC) (epicName : LC) : Bool × Option LC :=
  let desc := data.descriptionField.getD defaultDescription
  let ac := data.acceptanceField.getD defaultAcceptance
  match createIssue (mkIssueDict data.draft_summary desc ac user epicKey)
  with
  | none => (false, none)
  | some key =>
    let status :=
      if transition_jira_issue env key "Done".data then "Done".data
      else "Open".data
    (true, some (committedEntryStr epicName epicKey issueType key
      data.draft_summary status desc ac))

def skippedLC : LC := "skipped".data

/-- `process_single_entry` (lines 122-358) under the unbounded-operator
model: `(True, committed-string)` on success, `(False, "skipped")` on any
operator decline, `(False, None)` when issue creation fails; `none` only
when an interactive re-prompt loop exceeds its fuel. -/
def process_single_entry (data : EntryData) (env : TrackerEnv)
    (createIssue : IssueDict → Option LC) (user : LC) (fuel : Nat)
    (inputs : Nat → LC) (n : Nat) : Option ((Bool × Option LC) × Nat) :=
  if data.draft_summary = [] then some ((false, some skippedLC), n)
  else
    let issueType := (determineIssueType data.typeField).1
    let ans := pyLower (getUserInputVal (inputs n) (some "yes".data))
    if ans = "skip".data then some ((false, some skippedLC), n + 1)
    else if ans ≠ "yes".data then some ((false, some skippedLC), n + 1)
    else
      match epicPhase env user fuel inputs (n + 1) with
      | none => none
      | some ((epicKey, epicName), n2) =>
        if (dupPhase env data.draft_summary epicKey inputs n2).1 then
          some (creationPhase data env createIssue user issueType epicKey
            epicName, (dupPhase env data.draft_summary epicKey inputs n2).2)
        else some ((false, some skippedLC),
          (dupPhase env data.draft_summary epicKey inputs n2).2)

/-! ### The batch loop and the whole run -/

/-- The entry loop of `main` (lines 513-537): per entry either a parse
failure (slot `None`, nothing committed) or the `process_single_entry`
outcome; a successful entry records its original text in the slot and
appends its committed string when that string is truthy and not
`"skipped"`. -/
def mainLoop (env : TrackerEnv) (createIssue : IssueDict → Option LC)
    (user : LC) (fuel : Nat) (inputs : Nat → LC) :
    Nat → List LC → Option (List (Option LC) × List LC × Nat)
  | n, [] => some ([], [], n)
  | n, t :: ts =>
    if pyStrip t = [] then mainLoop env createIssue user fuel inputs n ts
    else
      match parsePendingEntry t with
      | none =>
        match mainLoop env createIssue user fuel inputs n ts with
        | none => none
        | some (slots, commits, n') => some (none :: slots, commits, n')
      | some data =>
        match process_single_entry data env createIssue user fuel inputs n
        with
        | none => none
        | some ((succ, res), n1) =>
          match mainLoop env createIssue user fuel inputs n1 ts with
          | none => none
          | some (slots, commits, n') =>
            if succ then
              some (some t :: slots,
                (match res with
                  | some r =>
                    if r ≠ [] ∧ r ≠ skippedLC then r :: commits else commits
                  | none => commits), n')
            else some (none :: slots, commits, n')

/-- Lines 549-561: the `i`-th entry remains pending iff its slot is `None`;
an entry beyond the processed list (which cannot occur, `main` logs a
mismatch and keeps it) is kept.  The indexed Python loop walks both lists
in step, which this recursion mirrors. -/
def computeRemaining : List LC → List (Option LC) → List LC
  | [], _ => []
  | t :: ts, [] => t :: computeRemaining ts []
  | t :: ts, s :: ss =>
    (if s = none then [t] else []) ++ computeRemaining ts ss

structure RunOut where
  pendingAfter1 : LC
  pendingFinal : LC
  committedAppend : Option LC
deriving DecidableEq

inductive RunResult
  | untouched
  | wrote (out : RunOut)
deriving DecidableEq

/-- The verbatim-preserved template section of a pending log. -/
def templateOf (content : LC) : LC := (partitionLog content).1

/-- The pending entry texts of a pending log. -/
def entriesOf (content : LC) : List LC :=
  splitEntries (partitionLog content).2

/-- Line 507: the reporter/assignee username, the stripped answer 0 with
the environment default as fallback on blank input. -/
def runUser (defaultUser : LC) (inputs : Nat → LC) : LC :=
  if pyStrip (inputs 0) = [] then defaultUser else pyStrip (inputs 0)

/-- One complete run of `main` on an existing pending log after the
user-file selection (lines 435-658): read and partition the file, split the
entries; with no entries the run returns before touching any file
(`untouched`); otherwise the reporter username is taken from the stream
(answer 0, falling back to the default when blank), every entry is
processed in order, the committed log is appended only when some committed
text exists, and the pending log is rewritten twice in sequence, the second
rewrite giving the final content.  `none` models only fuel exhaustion of
the interactive loops. -/
def runPipeline (env : TrackerEnv) (createIssue : IssueDict → Option LC)
    (defaultUser : LC) (fuel : Nat) (inputs : Nat → LC) (content : LC) :
    Option RunResult :=
  if entriesOf content = [] then some RunResult.untouched
  else
    match mainLoop env createIssue (runUser defaultUser inputs) fuel inputs
      1 (entriesOf content) with
    | none => none
    | some (slots, commits, _) =>
      some (RunResult.wrote {
        pendingAfter1 := rewrite1 (templateOf content)
          (computeRemaining (entriesOf content) slots)
          (runUser defaultUser inputs)
        pendingFinal := rewrite2 (templateOf content)
          (computeRemaining (entriesOf content) slots)
        committedAppend :=
          if commits ≠ [] then some (committedAppendText commits)
          else none })

/-- The pending-log content after a run: unchanged when the run returned
before writing, otherwise the second rewrite's output. -/
def finalPendingOf (res : RunResult) (content : LC) : LC :=
  match res with
  | RunResult.untouched => content
  | RunResult.wrote out => out.pendingFinal

/-! ### Split and strip lemmas -/

theorem splitSepF_succ (f : Nat) : ∀ xs : LC, xs.length ≤ f →
    splitSepF (f + 1) xs = splitSepF f xs := by
  induction f with
  | zero =>
    intro xs hlen
    have hx : xs = [] := List.length_eq_zero.mp (by omega)
    subst hx
    rfl
  | succ f ih =>
    intro xs hlen
    show (match findSub sepL xs with
      | none => [xs]
      | some i => xs.take i :: splitSepF (f + 1)
          (xs.drop (i + sepL.length))) =
      (match findSub sepL xs with
      | none => [xs]
      | some i => xs.take i :: splitSepF f (xs.drop (i + sepL.length)))
    cases h : findSub sepL xs with
    | none => rfl
    | some i =>
      have hb := findSub_bound h
      have h4 : sepL.length = 4 := rfl
      dsimp only
      rw [ih (xs.drop (i + sepL.length))
        (by rw [List.length_drop]; omega)]

theorem splitSepF_ge {xs : LC} {f : Nat} (hf : xs.length ≤ f) :
    splitSepF f xs = splitSepF xs.length xs := by
  have haux : ∀ k, splitSepF (xs.length + k) xs =
      splitSepF xs.length xs := by
    intro k
    induction k with
    | zero => rfl
    | succ k ihk =>
      rw [show xs.length + (k + 1) = (xs.length + k) + 1 from rfl,
        splitSepF_succ (xs.length + k) xs (by omega), ihk]
  rw [show f = xs.length + (f - xs.length) by omega, haux]

theorem splitSep_of_none {xs : LC} (h : findSub sepL xs = none) :
    splitSep xs = [xs] := by
  rw [splitSep]
  cases hl : xs.length with
  | zero => rfl
  | succ n =>
    show (match findSub sepL xs with
      | none => [xs]
      | some i => xs.take i :: splitSepF n (xs.drop (i + sepL.length))) =
      [xs]
    rw [h]

theorem splitSep_of_some {xs : LC} {i : Nat} (h : findSub sepL xs = some i) :
    splitSep xs = xs.take i :: splitSep (xs.drop (i + sepL.length)) := by
  have hb := findSub_bound h
  have h4 : sepL.length = 4 := rfl
  obtain ⟨n, hn⟩ : ∃ n, xs.length = n + 1 := ⟨xs.length - 1, by omega⟩
  rw [splitSep, hn]
  show (match findSub sepL xs with
    | none => [xs]
    | some i => xs.take i :: splitSepF n (xs.drop (i + sepL.length))) =
    xs.take i :: splitSep (xs.drop (i + sepL.length))
  rw [h, splitSep]
  dsimp only
  congr 1
  refine splitSepF_ge ?_
  rw [List.length_drop]
  omega

theorem dropWhile_to_suffix (p : Char → Bool) (l : List Char) :
    ∃ a, a ++ l.dropWhile p = l :=
  ⟨l.takeWhile p, List.takeWhile_append_dropWhile p l⟩

theorem rdropWhile_to_pre (p : Char → Bool) (l : List Char) :
    ∃ b, l.rdropWhile p ++ b = l := by
  have h := List.rdropWhile_prefix p l
  exact h

/-- `pyStrip` yields a contiguous slice of its input. -/
theorem pyStrip_slice (s : LC) : ∃ a b, a ++ pyStrip s ++ b = s := by
  obtain ⟨a, ha⟩ := dropWhile_to_suffix isPySpace s
  obtain ⟨b, hb⟩ := rdropWhile_to_pre isPySpace (s.dropWhile isPySpace)
  exact ⟨a, b, by rw [pyStrip, List.append_assoc, hb, ha]⟩

theorem dropWhile_eq_self_of_pre {p : Char → Bool} {l l' : List Char}
    (h : l.dropWhile p = l) (hpre : ∃ t, l' ++ t = l) :
    l'.dropWhile p = l' := by
  rw [List.dropWhile_eq_self_iff] at h ⊢
  intro hl
  obtain ⟨t, rfl⟩ := hpre
  have hlen : 0 < (l' ++ t).length := by
    simp only [List.length_append]
    omega
  have hx := h hlen
  have hgets : (l' ++ t).get ⟨0, hlen⟩ = l'.get ⟨0, hl⟩ := by
    cases l' with
    | nil => simp at hl
    | cons c m => rfl
  rw [hgets] at hx
  exact hx

theorem pyStrip_idem (s : LC) : pyStrip (pyStrip s) = pyStrip s := by
  rw [pyStrip, pyStrip]
  have hd1 : List.dropWhile isPySpace (s.dropWhile isPySpace) =
      s.dropWhile isPySpace := List.dropWhile_idempotent isPySpace s
  have hd : ((s.dropWhile isPySpace).rdropWhile isPySpace).dropWhile
      isPySpace = (s.dropWhile isPySpace).rdropWhile isPySpace :=
    dropWhile_eq_self_of_pre hd1 (rdropWhile_to_pre _ _)
  rw [hd, List.rdropWhile_idempotent]

theorem isPrefixOf_of_take {pat l : LC} {k : Nat}
    (h : pat.isPrefixOf (l.take k) = true) : pat.isPrefixOf l = true := by
  rcases isPrefixOf_iff.mp h with ⟨t, ht⟩
  exact isPrefixOf_iff.mpr ⟨t ++ l.drop k,
    by rw [← List.append_assoc, ht, List.take_append_drop]⟩

/-- Pieces produced by `splitSep` contain no separator and are contiguous
slices of the input. -/
theorem splitSep_pieces : ∀ (N : Nat) (xs : LC), xs.length ≤ N →
    ∀ x ∈ splitSep xs, (¬ Occurs sepL x) ∧ ∃ a b, a ++ x ++ b = xs := by
  intro N
  induction N with
  | zero =>
    intro xs hlen x hx
    have hxs : xs = [] := List.length_eq_zero.mp (Nat.le_zero.mp hlen)
    subst hxs
    rw [splitSep_of_none (by decide)] at hx
    simp only [List.mem_singleton] at hx
    subst hx
    refine ⟨?_, [], [], rfl⟩
    rintro ⟨s, t, habs⟩
    simp [sepL] at habs
  | succ N ih =>
    intro xs hlen x hx
    cases hf : findSub sepL xs with
    | none =>
      rw [splitSep_of_none hf] at hx
      simp only [List.mem_singleton] at hx
      subst hx
      exact ⟨findSub_none_iff_not_occurs.mp hf, [], [], by simp⟩
    | some i =>
      rw [splitSep_of_some hf] at hx
      rcases List.mem_cons.mp hx with rfl | hx'
      · refine ⟨?_, [], xs.drop i, by simp [List.take_append_drop]⟩
        rintro hocc
        rcases occurs_iff_exists_drop.mp hocc with ⟨j, hj⟩
        have hji : j < i := by
          have h4 := isPrefixOf_length_le hj
          simp only [List.length_drop, List.length_take] at h4
          have : sepL.length = 4 := rfl
          omega
        have hlift : sepL.isPrefixOf (xs.drop j) = true := by
          rw [List.drop_take] at hj
          exact isPrefixOf_of_take hj
        have hmin := (findSub_eq_some_iff.mp hf).2 j hji
        rw [hlift] at hmin
        cases hmin
      · have hdlen : (xs.drop (i + sepL.length)).length ≤ N := by
          have hb := findSub_bound hf
          have h4 : sepL.length = 4 := rfl
          simp only [List.length_drop]
          omega
        obtain ⟨hocc, a, b, hab⟩ := ih (xs.drop (i + sepL.length)) hdlen x hx'
        refine ⟨hocc, xs.take (i + sepL.length) ++ a, b, ?_⟩
        rw [List.append_assoc (xs.take _) a x,
          List.append_assoc (xs.take _) (a ++ x) b, hab,
          List.take_append_drop]

/-- Entries produced by `splitEntries` are stripped, non-empty,
separator-free, and contiguous slices of the entry content. -/
theorem splitEntries_mem {p : LC} :
    ∀ e ∈ splitEntries p, pyStrip e = e ∧ e ≠ [] ∧ (¬ Occurs sepL e) ∧
      ∃ a b, a ++ e ++ b = p := by
  intro e he
  simp only [splitEntries, List.mem_filter, List.mem_map] at he
  obtain ⟨⟨piece, hpiece, rfl⟩, hne⟩ := he
  obtain ⟨hocc, a, b, hab⟩ := splitSep_pieces p.length p le_rfl piece hpiece
  refine ⟨pyStrip_idem piece, ?_, ?_, ?_⟩
  · simpa using hne
  · intro h
    obtain ⟨u, v, huv⟩ := h
    obtain ⟨c, d, hcd⟩ := pyStrip_slice piece
    refine hocc ⟨c ++ u, v ++ d, ?_⟩
    calc (c ++ u) ++ sepL ++ (v ++ d)
        = c ++ ((u ++ sepL ++ v) ++ d) := by simp [List.append_assoc]
      _ = c ++ (pyStrip piece ++ d) := by rw [huv]
      _ = piece := by rw [← List.append_assoc]; exact hcd
  · obtain ⟨c, d, hcd⟩ := pyStrip_slice piece
    refine ⟨a ++ c, d ++ b, ?_⟩
    calc (a ++ c) ++ pyStrip piece ++ (d ++ b)
        = a ++ ((c ++ pyStrip piece ++ d) ++ b) := by
          simp [List.append_assoc]
      _ = a ++ (piece ++ b) := by rw [hcd]
      _ = p := by rw [← List.append_assoc]; exact hab

/-- Any pattern absent from the entry content is absent from every entry. -/
theorem splitEntries_not_occurs {pat p : LC} (hp : ¬ Occurs pat p) :
    ∀ e ∈ splitEntries p, ¬ Occurs pat e := by
  intro e he hocc
  obtain ⟨_, _, _, a, b, hab⟩ := splitEntries_mem e he
  obtain ⟨u, v, huv⟩ := hocc
  refine hp ⟨a ++ u, v ++ b, ?_⟩
  calc (a ++ u) ++ pat ++ (v ++ b)
      = a ++ ((u ++ pat ++ v) ++ b) := by simp [List.append_assoc]
    _ = a ++ (e ++ b) := by rw [huv]
    _ = p := by rw [← List.append_assoc]; exact hab

/-! ### The remaining-entry computation -/

theorem computeRemaining_all_none (ts : List LC) :
    computeRemaining ts (ts.map (fun _ => none)) = ts := by
  induction ts with
  | nil => rfl
  | cons t ts ih =>
    rw [List.map_cons]
    show (if (none : Option LC) = none then [t] else []) ++
      computeRemaining ts (ts.map fun _ => none) = t :: ts
    rw [if_pos rfl, ih]
    rfl

theorem computeRemaining_length {ts : List LC} :
    ∀ {slots : List (Option LC)}, slots.length = ts.length →
    (computeRemaining ts slots).length =
      slots.countP (fun s => s.isNone) := by
  induction ts with
  | nil =>
    intro slots h
    cases slots with
    | nil => rfl
    | cons s ss => simp at h
  | cons t ts ih =>
    intro slots h
    cases slots with
    | nil => simp at h
    | cons s ss =>
      simp only [computeRemaining, List.length_append, List.countP_cons]
      rw [ih (by simpa using h)]
      cases s with
      | none => simp only [Option.isNone]; simp; omega
      | some v => simp only [Option.isNone]; simp

theorem computeRemaining_get_mem {ts : List LC} :
    ∀ {slots : List (Option LC)} {j : Nat} (hj : j < ts.length)
      (hjs : j < slots.length), slots.get ⟨j, hjs⟩ = none →
      ts.get ⟨j, hj⟩ ∈ computeRemaining ts slots := by
  induction ts with
  | nil => intro slots j hj; simp at hj
  | cons t ts ih =>
    intro slots j hj hjs hnone
    cases slots with
    | nil => simp at hjs
    | cons s ss =>
      cases j with
      | zero =>
        have hs : s = none := hnone
        simp [computeRemaining, hs]
      | succ j' =>
        have := ih (j := j') (by simpa using hj) (by simpa using hjs) hnone
        simp only [computeRemaining, List.mem_append]
        right
        exact this

/-- With one slot per entry, the remaining entries are exactly the
`None`-slot entries, in order and byte-identical. -/
theorem computeRemaining_eq_filter {ts : List LC} :
    ∀ {slots : List (Option LC)}, slots.length = ts.length →
    computeRemaining ts slots =
      (ts.zip slots).filterMap
        (fun p => if p.2 = none then some p.1 else none) := by
  induction ts with
  | nil =>
    intro slots h
    cases slots with
    | nil => rfl
    | cons s ss => simp at h
  | cons t ts ih =>
    intro slots h
    cases slots with
    | nil => simp at h
    | cons s ss =>
      simp only [computeRemaining, List.zip_cons_cons, List.filterMap_cons]
      rw [ih (by simpa using h)]
      cases s with
      | none => simp
      | some v => simp

/-! ### Basic facts about the per-entry state machine -/

theorem parsePendingEntry_summary_ne_nil {t : LC} {data : EntryData}
    (h : parsePendingEntry t = some data) : data.draft_summary ≠ [] := by
  simp only [parsePendingEntry] at h
  split at h
  · cases h
  · rename_i s heq
    split at h
    · cases h
    · rename_i hne
      cases h
      exact hne

theorem committedEntryStr_ne {en : LC} {ek : Option LC}
    {it k s st d a : LC} :
    committedEntryStr en ek it k s st d a ≠ [] ∧
      committedEntryStr en ek it k s st d a ≠ skippedLC := by
  have hshape : committedEntryStr en ek it k s st d a =
      '#' :: ('#' :: (" Epic: ".data ++ (en ++ (" [".data ++
        ((match ek with | some k' => k' | none => "N/A".data) ++
          ("]\n\n### ".data ++ (it ++ (": ".data ++ (k ++ (" - ".data ++
            (s ++ (" (Status: ".data ++ (st ++
              (")\n\n**Description:**\n".data ++ (d ++
                ("\n\n## Acceptance Criteria\n".data ++ (a ++
                  "\n---\n".data))))))))))))))))) := by
    simp only [committedEntryStr, List.append_assoc]
    rfl
  rw [hshape]
  constructor
  · simp
  · intro h
    have := congrArg (fun l => l.head?) h
    simp [skippedLC] at this

/-- Any successful per-entry outcome comes from the creation phase: the
committed string is the rendered record for a key returned by the creation
call on an issue dictionary bearing the entry's summary. -/
theorem process_success_shape {data : EntryData} {env : TrackerEnv}
    {createIssue : IssueDict → Option LC} {user : LC} {fuel : Nat}
    {inputs : Nat → LC} {n : Nat} {res : Option LC} {n' : Nat}
    (h : process_single_entry data env createIssue user fuel inputs n =
      some ((true, res), n')) :
    ∃ epicKey epicName key,
      createIssue (mkIssueDict data.draft_summary
          (data.descriptionField.getD defaultDescription)
          (data.acceptanceField.getD defaultAcceptance) user epicKey) =
        some key ∧
      res = some (committedEntryStr epicName epicKey
        (determineIssueType data.typeField).1 key data.draft_summary
        (if transition_jira_issue env key "Done".data then "Done".data
          else "Open".data)
        (data.descriptionField.getD defaultDescription)
        (data.acceptanceField.getD defaultAcceptance)) := by
  simp only [process_single_entry] at h
  by_cases h0 : data.draft_summary = []
  · rw [if_pos h0] at h; simp at h
  · rw [if_neg h0] at h
    by_cases h1 : pyLower (getUserInputVal (inputs n) (some ("yes".data))) =
        "skip".data
    · rw [if_pos h1] at h; simp at h
    · rw [if_neg h1] at h
      by_cases h2 : pyLower (getUserInputVal (inputs n) (some ("yes".data)))
          ≠ "yes".data
      · rw [if_pos h2] at h; simp at h
      · rw [if_neg h2] at h
        cases hep : epicPhase env user fuel inputs (n + 1) with
        | none => rw [hep] at h; cases h
        | some pr =>
          obtain ⟨⟨epicKey, epicName⟩, n2⟩ := pr
          rw [hep] at h
          dsimp only at h
          by_cases hp :
              (dupPhase env data.draft_summary epicKey inputs n2).1 = true
          · rw [if_pos hp] at h
            simp only [creationPhase] at h
            cases hc : createIssue (mkIssueDict data.draft_summary
                (data.descriptionField.getD defaultDescription)
                (data.acceptanceField.getD defaultAcceptance) user epicKey)
              with
            | none => rw [hc] at h; simp at h
            | some key =>
              rw [hc] at h
              refine ⟨epicKey, epicName, key, hc, ?_⟩
              simp only [Option.some.injEq, Prod.mk.injEq] at h
              exact h.1.2.symm
          · rw [if_neg hp] at h; simp at h

/-- Declining at the initial confirmation (answer `no`) retains the entry
as skipped, consuming exactly one operator answer. -/
theorem process_decline {data : EntryData} {env : TrackerEnv}
    {createIssue : IssueDict → Option LC} {user : LC} {fuel : Nat}
    {inputs : Nat → LC} {n : Nat}
    (hsum : data.draft_summary ≠ [])
    (hans : pyStrip (inputs n) = "no".data) :
    process_single_entry data env createIssue user fuel inputs n =
      some ((false, some skippedLC), n + 1) := by
  have hval : getUserInputVal (inputs n) (some ("yes".data)) = "no".data := by
    simp only [getUserInputVal, hans]
    rw [if_neg (by decide), if_neg (by decide)]
  simp only [process_single_entry, if_neg hsum, hval]
  rw [if_neg (by decide), if_pos (by decide)]

/-- Unfolding `joinSep` on a list of at least two entries. -/
theorem joinSep_cons {e : LC} {rest : List LC} (h : rest ≠ []) :
    joinSep (e :: rest) = e ++ sepL ++ joinSep rest := by
  cases rest with
  | nil => exact absurd rfl h
  | cons y ys => rfl

theorem mem_occurs_joinSep {e : LC} :
    ∀ {l : List LC}, e ∈ l → Occurs e (joinSep l) := by
  intro l
  induction l with
  | nil => simp
  | cons x xs ih =>
    intro he
    rcases List.mem_cons.mp he with rfl | he'
    · cases xs with
      | nil => exact ⟨[], [], by simp [joinSep]⟩
      | cons y ys =>
        refine ⟨[], sepL ++ joinSep (y :: ys), ?_⟩
        show [] ++ e ++ (sepL ++ joinSep (y :: ys)) =
          e ++ sepL ++ joinSep (y :: ys)
        simp [List.append_assoc]
    · have hxs : xs ≠ [] := by rintro rfl; simp at he'
      obtain ⟨a, b, hab⟩ := ih he'
      refine ⟨x ++ sepL ++ a, b, ?_⟩
      rw [joinSep_cons hxs, ← hab]
      simp [List.append_assoc]

/-- Every remaining entry appears verbatim inside the final pending
content produced by the second rewrite. -/
theorem mem_occurs_rewrite2 {e t : LC} {remaining : List LC}
    (he : e ∈ remaining) : Occurs e (rewrite2 t remaining) := by
  have hne : remaining ≠ [] := by rintro rfl; simp at he
  obtain ⟨a, b, hab⟩ := mem_occurs_joinSep he
  rw [rewrite2, if_pos hne]
  set X := (if t.length + (joinSep remaining).length ≠ t.length then
      (if threeDash.isSuffixOf (joinSep remaining) then ([] : LC) else sepL)
    else []) with hX
  refine ⟨t ++ a, b ++ X, ?_⟩
  calc (t ++ a) ++ e ++ (b ++ X)
      = t ++ ((a ++ e ++ b) ++ X) := by simp [List.append_assoc]
    _ = t ++ (joinSep remaining ++ X) := by rw [hab]

/-- Structure of a completed batch loop over stripped non-empty entries:
one slot per entry; a successful entry carries its own text in its slot
and contributes exactly one committed record (its process outcome being a
successful `process_single_entry` run); every other entry has slot `None`
and contributes nothing. -/
theorem mainLoop_spec {env : TrackerEnv}
    {createIssue : IssueDict → Option LC} {user : LC} {fuel : Nat}
    {inputs : Nat → LC} :
    ∀ {es : List LC} {n : Nat} {slots : List (Option LC)}
      {commits : List LC} {n' : Nat},
      (∀ e ∈ es, pyStrip e ≠ []) →
      mainLoop env createIssue user fuel inputs n es =
        some (slots, commits, n') →
      slots.length = es.length ∧
      commits.length = slots.countP (fun s => s.isSome) ∧
      (∀ j (hj : j < es.length) (hjs : j < slots.length),
        slots.get ⟨j, hjs⟩ ≠ none →
        slots.get ⟨j, hjs⟩ = some (es.get ⟨j, hj⟩) ∧
        ∃ data m res m',
          parsePendingEntry (es.get ⟨j, hj⟩) = some data ∧
          process_single_entry data env createIssue user fuel inputs m =
            some ((true, res), m')) := by
  intro es
  induction es with
  | nil =>
    intro n slots commits n' hstrip hml
    simp only [mainLoop, Option.some.injEq, Prod.mk.injEq] at hml
    obtain ⟨h1, h2, h3⟩ := hml
    subst h1; subst h2
    exact ⟨rfl, rfl, fun j hj => absurd hj (Nat.not_lt_zero j)⟩
  | cons t ts ih =>
    intro n slots commits n' hstrip hml
    have htstrip : pyStrip t ≠ [] := hstrip t (by simp)
    simp only [mainLoop] at hml
    rw [if_neg htstrip] at hml
    cases hp : parsePendingEntry t with
    | none =>
      rw [hp] at hml
      dsimp only at hml
      cases hrec : mainLoop env createIssue user fuel inputs n ts with
      | none => rw [hrec] at hml; cases hml
      | some trip =>
        obtain ⟨slots', commits', n''⟩ := trip
        rw [hrec] at hml
        simp only [Option.some.injEq, Prod.mk.injEq] at hml
        obtain ⟨h1, h2, h3⟩ := hml
        subst h1; subst h2
        obtain ⟨hl, hc, hget⟩ :=
          ih (fun e he => hstrip e (by simp [he])) hrec
        refine ⟨by simp [hl], by simpa [List.countP_cons] using hc, ?_⟩
        intro j hj hjs hne
        cases j with
        | zero => exact absurd rfl hne
        | succ j' =>
          have hj2 : j' < ts.length := by
            simp only [List.length_cons] at hj
            omega
          have hjs2 : j' < slots'.length := by
            simp only [List.length_cons] at hjs
            omega
          exact hget j' hj2 hjs2 hne
    | some data =>
      rw [hp] at hml
      dsimp only at hml
      cases hproc : process_single_entry data env createIssue user fuel
          inputs n with
      | none => rw [hproc] at hml; cases hml
      | some pr =>
        obtain ⟨⟨succ, res⟩, n1⟩ := pr
        rw [hproc] at hml
        dsimp only at hml
        cases hrec : mainLoop env createIssue user fuel inputs n1 ts with
        | none => rw [hrec] at hml; cases hml
        | some trip =>
          obtain ⟨slots', commits', n''⟩ := trip
          rw [hrec] at hml
          dsimp only at hml
          obtain ⟨hl, hc, hget⟩ :=
            ih (fun e he => hstrip e (by simp [he])) hrec
          cases succ with
          | false =>
            rw [if_neg (by simp)] at hml
            simp only [Option.some.injEq, Prod.mk.injEq] at hml
            obtain ⟨h1, h2, h3⟩ := hml
            subst h1; subst h2
            refine ⟨by simp [hl], by simpa [List.countP_cons] using hc, ?_⟩
            intro j hj hjs hne
            cases j with
            | zero => exact absurd rfl hne
            | succ j' =>
              have hj2 : j' < ts.length := by
                simp only [List.length_cons] at hj
                omega
              have hjs2 : j' < slots'.length := by
                simp only [List.length_cons] at hjs
                omega
              exact hget j' hj2 hjs2 hne
          | true =>
            rw [if_pos rfl] at hml
            obtain ⟨ek, en, key, hkey, hres⟩ := process_success_shape hproc
            subst hres
            dsimp only at hml
            rw [if_pos ⟨committedEntryStr_ne.1, committedEntryStr_ne.2⟩]
              at hml
            simp only [Option.some.injEq, Prod.mk.injEq] at hml
            obtain ⟨h1, h2, h3⟩ := hml
            subst h1; subst h2
            refine ⟨by simp [hl], ?_, ?_⟩
            · simp only [List.length_cons, List.countP_cons, hc]
              simp
            · intro j hj hjs hne
              cases j with
              | zero =>
                exact ⟨rfl, data, n, _, n1, hp, hproc⟩
              | succ j' =>
                have hj2 : j' < ts.length := by
                  simp only [List.length_cons] at hj
                  omega
                have hjs2 : j' < slots'.length := by
                  simp only [List.length_cons] at hjs
                  omega
                exact hget j' hj2 hjs2 hne

theorem countP_some_add_none (slots : List (Option LC)) :
    slots.countP (fun s => s.isSome) + slots.countP (fun s => s.isNone) =
      slots.length := by
  induction slots with
  | nil => rfl
  | cons s ss ih =>
    rw [List.countP_cons, List.countP_cons, List.length_cons]
    cases s with
    | none =>
      rw [if_neg (by decide), if_pos (by decide)]
      omega
    | some v =>
      rw [if_pos (show (some v).isSome = true from rfl),
        if_neg (show ¬ (some v).isNone = true by simp)]
      omega

/-- Characterisation of a completed writing run. -/
theorem runPipeline_wrote {env : TrackerEnv}
    {createIssue : IssueDict → Option LC} {defaultUser : LC} {fuel : Nat}
    {inputs : Nat → LC} {content : LC} {slots : List (Option LC)}
    {commits : List LC} {n' : Nat}
    (hne : entriesOf content ≠ [])
    (hml : mainLoop env createIssue (runUser defaultUser inputs) fuel
      inputs 1 (entriesOf content) = some (slots, commits, n')) :
    runPipeline env createIssue defaultUser fuel inputs content =
      some (RunResult.wrote {
        pendingAfter1 := rewrite1 (templateOf content)
          (computeRemaining (entriesOf content) slots)
          (runUser defaultUser inputs)
        pendingFinal := rewrite2 (templateOf content)
          (computeRemaining (entriesOf content) slots)
        committedAppend :=
          if commits ≠ [] then some (committedAppendText commits)
          else none }) := by
  simp only [runPipeline, if_neg hne, hml]

theorem entriesOf_strip {content : LC} :
    ∀ e ∈ entriesOf content, pyStrip e ≠ [] := by
  intro e he
  obtain ⟨hs, hne, _, _⟩ := splitEntries_mem e he
  rw [hs]
  exact hne

/-! ### C4 — creation-failure retention -/

/-- C4: an entry whose issue-creation call fails — the connector returns no
key, which is also how an exception raised inside it surfaces at this
boundary — keeps slot `None`: the run completes with the entry among the
remaining texts written back to the pending log, byte-identical and
appearing verbatim inside the final pending content, while the committed
records number exactly the successful slots, so no committed record is
produced for this entry. -/
theorem C4_creation_failure_retained
    (env : TrackerEnv) (createIssue : IssueDict → Option LC)
    (defaultUser : LC) (fuel : Nat) (inputs : Nat → LC) (content : LC)
    (slots : List (Option LC)) (commits : List LC) (n' : Nat) (j : Nat)
    (data : EntryData)
    (hj : j < (entriesOf content).length)
    (hml : mainLoop env createIssue (runUser defaultUser inputs) fuel
      inputs 1 (entriesOf content) = some (slots, commits, n'))
    (hdata : parsePendingEntry ((entriesOf content).get ⟨j, hj⟩) =
      some data)
    (hfail : ∀ d : IssueDict, d.summary = data.draft_summary →
      createIssue d = none) :
    ∃ hjs : j < slots.length,
      slots.get ⟨j, hjs⟩ = none ∧
      (entriesOf content).get ⟨j, hj⟩ ∈
        computeRemaining (entriesOf content) slots ∧
      Occurs ((entriesOf content).get ⟨j, hj⟩)
        (rewrite2 (templateOf content)
          (computeRemaining (entriesOf content) slots)) ∧
      commits.length = slots.countP (fun s => s.isSome) ∧
      runPipeline env createIssue defaultUser fuel inputs content =
        some (RunResult.wrote {
          pendingAfter1 := rewrite1 (templateOf content)
            (computeRemaining (entriesOf content) slots)
            (runUser defaultUser inputs)
          pendingFinal := rewrite2 (templateOf content)
            (computeRemaining (entriesOf content) slots)
          committedAppend :=
            if commits ≠ [] then some (committedAppendText commits)
            else none }) := by
  have hne : entriesOf content ≠ [] := by
    intro h
    rw [h] at hj
    simp at hj
  obtain ⟨hl, hc, hget⟩ := mainLoop_spec entriesOf_strip hml
  have hjs : j < slots.length := by rw [hl]; exact hj
  have hslot : slots.get ⟨j, hjs⟩ = none := by
    by_contra hcon
    obtain ⟨_, data', m, res, m', hdata', hproc⟩ := hget j hj hjs hcon
    rw [hdata] at hdata'
    cases hdata'
    obtain ⟨ek, en, key, hkey, _⟩ := process_success_shape hproc
    rw [hfail _ rfl] at hkey
    cases hkey
  exact ⟨hjs, hslot, computeRemaining_get_mem hj hjs hslot,
    mem_occurs_rewrite2 (computeRemaining_get_mem hj hjs hslot), hc,
    runPipeline_wrote hne hml⟩

/-- The concrete tracker used by several witnesses: no epics, no versions,
every listing empty, transitions available but empty. -/
def envA : TrackerEnv :=
  { projectEpics := []
    projectVersions := []
    createEpicResult := fun _ => none
    storiesInEpic := fun _ => []
    transitionsResult := fun _ => Except.ok []
    executeTransitionResult := fun _ _ => Except.ok () }

/-- Operator script: username, then `yes` to the first confirmation, `no`
to everything after. -/
def inputsA : Nat → LC := fun n =>
  if n = 0 then "amy".data else if n = 1 then "yes".data else "no".data

def contentA : LC := "Draft Summary: x\n---\n".data

/-- Concrete instance of `C4_creation_failure_retained`: one entry, the
operator approves, no epic is linked, and the creation call returns no
key; the entry stays pending and nothing is committed. -/
theorem C4_creation_failure_retained_witness :
    ∃ hjs : 0 < ([none] : List (Option LC)).length,
      ([none] : List (Option LC)).get ⟨0, hjs⟩ = none ∧
      (entriesOf contentA).get ⟨0, by decide⟩ ∈
        computeRemaining (entriesOf contentA) [none] ∧
      Occurs ((entriesOf contentA).get ⟨0, by decide⟩)
        (rewrite2 (templateOf contentA)
          (computeRemaining (entriesOf contentA) [none])) ∧
      ([] : List LC).length =
        ([none] : List (Option LC)).countP (fun s => s.isSome) ∧
      runPipeline envA (fun _ => none) ("default_user".data) 3 inputsA
          contentA =
        some (RunResult.wrote {
          pendingAfter1 := rewrite1 (templateOf contentA)
            (computeRemaining (entriesOf contentA) [none])
            (runUser ("default_user".data) inputsA)
          pendingFinal := rewrite2 (templateOf contentA)
            (computeRemaining (entriesOf contentA) [none])
          committedAppend :=
            if ([] : List LC) ≠ [] then
              some (committedAppendText []) else none }) :=
  C4_creation_failure_retained envA (fun _ => none) ("default_user".data)
    3 inputsA contentA [none] [] 3 0
    { draft_summary := "x".data, typeField := none, userField := none,
      descriptionField := none, acceptanceField := none }
    (by decide) (by decide) (by decide) (fun d _ => rfl)

/-! ### C2 — the partition invariant -/

/-- C2: after one completed run over the `N` entries of the pending log,
every entry ends in exactly one of Committed (slot `some`, carrying its
own text) or Retained (slot `None`); committed-count plus retained-count
equals `N`; the retained entries are exactly the `None`-slot entries, in
order and byte-identical, each appearing verbatim in the rewritten pending
log; and the committed records number exactly the committed entries. -/
theorem C2_partition_invariant
    (env : TrackerEnv) (createIssue : IssueDict → Option LC)
    (defaultUser : LC) (fuel : Nat) (inputs : Nat → LC) (content : LC)
    (slots : List (Option LC)) (commits : List LC) (n' : Nat)
    (hne : entriesOf content ≠ [])
    (hml : mainLoop env createIssue (runUser defaultUser inputs) fuel
      inputs 1 (entriesOf content) = some (slots, commits, n')) :
    slots.length = (entriesOf content).length ∧
    slots.countP (fun s => s.isSome) + slots.countP (fun s => s.isNone) =
      (entriesOf content).length ∧
    commits.length = slots.countP (fun s => s.isSome) ∧
    (computeRemaining (entriesOf content) slots).length =
      slots.countP (fun s => s.isNone) ∧
    computeRemaining (entriesOf content) slots =
      ((entriesOf content).zip slots).filterMap
        (fun p => if p.2 = none then some p.1 else none) ∧
    (∀ e ∈ computeRemaining (entriesOf content) slots,
      Occurs e (rewrite2 (templateOf content)
        (computeRemaining (entriesOf content) slots))) ∧
    runPipeline env createIssue defaultUser fuel inputs content =
      some (RunResult.wrote {
        pendingAfter1 := rewrite1 (templateOf content)
          (computeRemaining (entriesOf content) slots)
          (runUser defaultUser inputs)
        pendingFinal := rewrite2 (templateOf content)
          (computeRemaining (entriesOf content) slots)
        committedAppend :=
          if commits ≠ [] then some (committedAppendText commits)
          else none }) := by
  obtain ⟨hl, hc, hget⟩ := mainLoop_spec entriesOf_strip hml
  refine ⟨hl, ?_, hc, computeRemaining_length hl,
    computeRemaining_eq_filter hl, fun e he => mem_occurs_rewrite2 he,
    runPipeline_wrote hne hml⟩
  rw [← hl]
  exact countP_some_add_none slots

def contentB : LC :=
  "Draft Summary: x\n---\nDraft Summary: y\n---\n".data

/-- Operator script: username, then `no` to everything. -/
def inputsB : Nat → LC := fun n =>
  if n = 0 then "amy".data else "no".data

/-- Concrete instance of `C2_partition_invariant`: two entries, both
declined, both retained; 0 committed + 2 retained = 2. -/
theorem C2_partition_invariant_witness :
    ([none, none] : List (Option LC)).length =
      (entriesOf contentB).length ∧
    ([none, none] : List (Option LC)).countP (fun s => s.isSome) +
      ([none, none] : List (Option LC)).countP (fun s => s.isNone) =
      (entriesOf contentB).length ∧
    ([] : List LC).length =
      ([none, none] : List (Option LC)).countP (fun s => s.isSome) ∧
    (computeRemaining (entriesOf contentB) [none, none]).length =
      ([none, none] : List (Option LC)).countP (fun s => s.isNone) ∧
    computeRemaining (entriesOf contentB) [none, none] =
      ((entriesOf contentB).zip ([none, none] : List (Option LC))).filterMap
        (fun p => if p.2 = none then some p.1 else none) ∧
    (∀ e ∈ computeRemaining (entriesOf contentB) [none, none],
      Occurs e (rewrite2 (templateOf contentB)
        (computeRemaining (entriesOf contentB) [none, none]))) ∧
    runPipeline envA (fun _ => none) ("default_user".data) 3 inputsB
        contentB =
      some (RunResult.wrote {
        pendingAfter1 := rewrite1 (templateOf contentB)
          (computeRemaining (entriesOf contentB) [none, none])
          (runUser ("default_user".data) inputsB)
        pendingFinal := rewrite2 (templateOf contentB)
          (computeRemaining (entriesOf contentB) [none, none])
        committedAppend :=
          if ([] : List LC) ≠ [] then
            some (committedAppendText []) else none }) :=
  C2_partition_invariant envA (fun _ => none) ("default_user".data) 3
    inputsB contentB [none, none] [] 3 (by decide) (by decide)

/-! ### C10 — the committed log is only appended on a commit -/

/-- C10: in a completed run, the committed log is opened and appended only
when at least one committed record exists — with no successful entry the
committed-append is `none` (the file is never opened) — and when records
exist, the appended text is each record followed by one extra newline. -/
theorem C10_committed_log_frame
    (env : TrackerEnv) (createIssue : IssueDict → Option LC)
    (defaultUser : LC) (fuel : Nat) (inputs : Nat → LC) (content : LC)
    (slots : List (Option LC)) (commits : List LC) (n' : Nat)
    (hne : entriesOf content ≠ [])
    (hml : mainLoop env createIssue (runUser defaultUser inputs) fuel
      inputs 1 (entriesOf content) = some (slots, commits, n')) :
    ∃ out : RunOut,
      runPipeline env createIssue defaultUser fuel inputs content =
        some (RunResult.wrote out) ∧
      (out.committedAppend = none ↔ commits = []) ∧
      (slots.countP (fun s => s.isSome) = 0 → out.committedAppend = none) ∧
      (commits ≠ [] → out.committedAppend =
        some ((commits.map (fun r => r ++ ['\n'])).flatten)) := by
  obtain ⟨hl, hc, hget⟩ := mainLoop_spec entriesOf_strip hml
  refine ⟨_, runPipeline_wrote hne hml, ?_, ?_, ?_⟩
  · constructor
    · intro h
      by_cases hcom : commits = []
      · exact hcom
      · rw [if_pos hcom] at h; cases h
    · intro h
      subst h
      simp
  · intro h
    have : commits = [] := by
      have := hc
      rw [h] at this
      exact List.length_eq_zero.mp this
    subst this
    simp
  · intro h
    rw [if_pos h]
    rfl

/-- Concrete instance of `C10_committed_log_frame`: both entries declined,
no commit, committed-append `none`. -/
theorem C10_committed_log_frame_witness :
    ∃ out : RunOut,
      runPipeline envA (fun _ => none) ("default_user".data) 3 inputsB
          contentB =
        some (RunResult.wrote out) ∧
      (out.committedAppend = none ↔ ([] : List LC) = []) ∧
      (([none, none] : List (Option LC)).countP (fun s => s.isSome) = 0 →
        out.committedAppend = none) ∧
      (([] : List LC) ≠ [] → out.committedAppend =
        some ((([] : List LC).map (fun r => r ++ ['\n'])).flatten)) :=
  C10_committed_log_frame envA (fun _ => none) ("default_user".data) 3
    inputsB contentB [none, none] [] 3 (by decide) (by decide)

theorem computeRemaining_sub {e : LC} :
    ∀ {ts : List LC} {slots : List (Option LC)},
      e ∈ computeRemaining ts slots → e ∈ ts := by
  intro ts
  induction ts with
  | nil => intro slots h; simp [computeRemaining] at h
  | cons t ts ih =>
    intro slots h
    cases slots with
    | nil =>
      rcases List.mem_cons.mp h with rfl | h'
      · simp
      · exact List.mem_cons_of_mem t (ih h')
    | cons s ss =>
      simp only [computeRemaining, List.mem_append] at h
      rcases h with h | h
      · by_cases hs : s = none
        · rw [if_pos hs] at h
          simp only [List.mem_singleton] at h
          simp [h]
        · rw [if_neg hs] at h
          cases h
      · simp [ih h]

theorem joinSep_ne_nil {l : List LC} (hl : l ≠ [])
    (h : ∀ e ∈ l, e ≠ []) : joinSep l ≠ [] := by
  cases l with
  | nil => exact absurd rfl hl
  | cons e rest =>
    cases rest with
    | nil => exact h e (by simp)
    | cons y ys =>
      rw [joinSep_cons (by simp)]
      simp only [ne_eq, List.append_eq_nil]
      rintro ⟨⟨-, hsep⟩, -⟩
      cases hsep

/-- Inversion of a writing run. -/
theorem runPipeline_wrote_inv {env : TrackerEnv}
    {createIssue : IssueDict → Option LC} {defaultUser : LC} {fuel : Nat}
    {inputs : Nat → LC} {content : LC} {out : RunOut}
    (h : runPipeline env createIssue defaultUser fuel inputs content =
      some (RunResult.wrote out)) :
    ∃ slots commits n',
      entriesOf content ≠ [] ∧
      mainLoop env createIssue (runUser defaultUser inputs) fuel inputs 1
        (entriesOf content) = some (slots, commits, n') ∧
      out = {
        pendingAfter1 := rewrite1 (templateOf content)
          (computeRemaining (entriesOf content) slots)
          (runUser defaultUser inputs)
        pendingFinal := rewrite2 (templateOf content)
          (computeRemaining (entriesOf content) slots)
        committedAppend :=
          if commits ≠ [] then some (committedAppendText commits)
          else none } := by
  simp only [runPipeline] at h
  by_cases hne : entriesOf content = []
  · rw [if_pos hne] at h
    cases h
  · rw [if_neg hne] at h
    cases hml : mainLoop env createIssue (runUser defaultUser inputs) fuel
        inputs 1 (entriesOf content) with
    | none => rw [hml] at h; cases h
    | some trip =>
      obtain ⟨slots, commits, n'⟩ := trip
      rw [hml] at h
      dsimp only at h
      refine ⟨slots, commits, n', hne, rfl, ?_⟩
      simp only [Option.some.injEq, RunResult.wrote.injEq] at h
      exact h.symm

/-- The template partition when the end marker and a separator after it
are both present: the cut is right after that separator. -/
theorem partitionLog_sep_some {c : LC} {m j : Nat}
    (hm : findSub markerL c = some m)
    (hj : findSub sepL (c.drop (m + markerL.length)) = some j) :
    partitionLog c =
      (c.take (m + markerL.length + j + sepL.length),
        c.drop (m + markerL.length + j + sepL.length)) := by
  simp only [partitionLog, hm, hj]

/-! ### C3 — template preservation -/

/-- C3: when the pending log contains a template block — the end marker at
`m` with the first following separator at offset `j` — the content of the
pending log after any completed run agrees with the original byte-for-byte
on the whole prefix up to and including that separator, however many
entries were committed, including when no entries remain or when the run
returned without rewriting. -/
theorem C3_template_preserved
    (env : TrackerEnv) (createIssue : IssueDict → Option LC)
    (defaultUser : LC) (fuel : Nat) (inputs : Nat → LC) (content : LC)
    (res : RunResult) (m j : Nat)
    (hm : findSub markerL content = some m)
    (hj : findSub sepL (content.drop (m + markerL.length)) = some j)
    (hrun : runPipeline env createIssue defaultUser fuel inputs content =
      some res) :
    (finalPendingOf res content).take
        (m + markerL.length + j + sepL.length) =
      content.take (m + markerL.length + j + sepL.length) := by
  cases res with
  | untouched => rfl
  | wrote out =>
    obtain ⟨slots, commits, n', hne, hml, hout⟩ := runPipeline_wrote_inv
      hrun
    have hcut : m + markerL.length + j + sepL.length ≤ content.length := by
      have h1 := findSub_bound hm
      have h2 := findSub_bound hj
      rw [List.length_drop] at h2
      omega
    have htempl : templateOf content =
        content.take (m + markerL.length + j + sepL.length) := by
      rw [templateOf, partitionLog_sep_some hm hj]
    have hlen : (templateOf content).length =
        m + markerL.length + j + sepL.length := by
      rw [htempl, List.length_take]
      omega
    subst hout
    show (rewrite2 (templateOf content)
        (computeRemaining (entriesOf content) slots)).take
        (m + markerL.length + j + sepL.length) = _
    rw [rewrite2, ← hlen, List.take_left, htempl, ← htempl, hlen]
    rw [htempl]

def contentC : LC :=
  "<!-- END TEMPLATE -->\n---\nDraft Summary: x\n---\n".data

/-- Concrete instance of `C3_template_preserved`: a pending log with a
template block, one declined entry; the rewritten log keeps the first 26
bytes (template including its trailing separator) unchanged. -/
theorem C3_template_preserved_witness :
    (finalPendingOf
        (RunResult.wrote {
          pendingAfter1 := rewrite1 (templateOf contentC)
            (computeRemaining (entriesOf contentC) [none])
            (runUser ("default_user".data) inputsB)
          pendingFinal := rewrite2 (templateOf contentC)
            (computeRemaining (entriesOf contentC) [none])
          committedAppend :=
            if ([] : List LC) ≠ [] then
              some (committedAppendText []) else none })
        contentC).take (0 + markerL.length + 1 + sepL.length) =
      contentC.take (0 + markerL.length + 1 + sepL.length) :=
  C3_template_preserved envA (fun _ => none) ("default_user".data) 3
    inputsB contentC _ 0 1 (by decide) (by decide) (by decide)

/-! ### C9 — the second rewrite determines the final content -/

/-- C9: in every completed writing run the final pending content is the
second rewrite's output, irrespective of what the first rewrite (also
present in the run result) wrote: template followed by the
separator-joined retained entries with a trailing separator appended
unless the joined text already ends in `---`; or, with no entries
remaining, the template (or nothing) followed by the
`# No pending entries remaining.` line with a newline ensured after a
non-blank template.  In particular, when no template was detected and
every entry committed, the first rewrite wrote the fresh replacement
template and the second overwrote it, leaving only the placeholder line. -/
theorem C9_second_rewrite_wins
    (env : TrackerEnv) (createIssue : IssueDict → Option LC)
    (defaultUser : LC) (fuel : Nat) (inputs : Nat → LC) (content : LC)
    (slots : List (Option LC)) (commits : List LC) (n' : Nat)
    (hne : entriesOf content ≠ [])
    (hml : mainLoop env createIssue (runUser defaultUser inputs) fuel
      inputs 1 (entriesOf content) = some (slots, commits, n')) :
    ∃ out : RunOut,
      runPipeline env createIssue defaultUser fuel inputs content =
        some (RunResult.wrote out) ∧
      out.pendingAfter1 = rewrite1 (templateOf content)
        (computeRemaining (entriesOf content) slots)
        (runUser defaultUser inputs) ∧
      out.pendingFinal = rewrite2 (templateOf content)
        (computeRemaining (entriesOf content) slots) ∧
      (computeRemaining (entriesOf content) slots ≠ [] →
        out.pendingFinal = templateOf content ++
          joinSep (computeRemaining (entriesOf content) slots) ++
          (if threeDash.isSuffixOf
              (joinSep (computeRemaining (entriesOf content) slots))
            then [] else sepL)) ∧
      (computeRemaining (entriesOf content) slots = [] →
        pyStrip (templateOf content) ≠ [] →
        out.pendingFinal = templateOf content ++
          (if (templateOf content).getLast? = some '\n' then []
            else ['\n']) ++ noPendingLine) ∧
      (computeRemaining (entriesOf content) slots = [] →
        pyStrip (templateOf content) = [] →
        out.pendingFinal = templateOf content ++ noPendingLine) ∧
      (templateOf content = [] →
        computeRemaining (entriesOf content) slots = [] →
        out.pendingAfter1 = freshTemplate (runUser defaultUser inputs) ∧
        out.pendingFinal = noPendingLine) := by
  refine ⟨_, runPipeline_wrote hne hml, rfl, rfl, ?_, ?_, ?_, ?_⟩
  · intro hrem
    have hjoin : joinSep (computeRemaining (entriesOf content) slots) ≠ []
      := by
      refine joinSep_ne_nil hrem ?_
      intro e he
      obtain ⟨_, hene, _, _⟩ :=
        splitEntries_mem e (computeRemaining_sub he)
      exact hene
    show rewrite2 _ _ = _
    have hjlen :
        (joinSep (computeRemaining (entriesOf content) slots)).length ≠ 0 :=
      fun h0 => hjoin (List.length_eq_zero.mp h0)
    rw [rewrite2, if_pos hrem, if_pos (by omega)]
    simp [List.append_assoc]
  · intro hrem hts
    show rewrite2 _ _ = _
    rw [rewrite2, if_neg (by simpa using hrem), if_pos hts]
    simp [List.append_assoc]
  · intro hrem hts
    show rewrite2 _ _ = _
    rw [rewrite2, if_neg (by simpa using hrem), if_neg (by simpa using hts)]
  · intro ht hrem
    constructor
    · show rewrite1 _ _ _ = _
      rw [ht, hrem]
      simp [rewrite1]
    · show rewrite2 _ _ = _
      rw [ht, hrem]
      simp [rewrite2, pyStrip, List.rdropWhile_nil]

def createC9 : IssueDict → Option LC := fun _ => some ("ROIA-9".data)

def slotC9 : List (Option LC) := [some ("Draft Summary: x".data)]

def commitC9 : LC :=
  committedEntryStr ("N/A".data) none ("Story".data) ("ROIA-9".data)
    ("x".data) ("Open".data) defaultDescription defaultAcceptance

set_option maxRecDepth 4000 in
/-- Concrete instance of `C9_second_rewrite_wins`: one entry, approved and
created; the log has no template block, so after the run the first rewrite
wrote the fresh replacement template and the second overwrote it with the
placeholder line alone. -/
theorem C9_second_rewrite_wins_witness :
    ∃ out : RunOut,
      runPipeline envA createC9 ("default_user".data) 3 inputsA contentA =
        some (RunResult.wrote out) ∧
      out.pendingAfter1 = rewrite1 (templateOf contentA)
        (computeRemaining (entriesOf contentA) slotC9)
        (runUser ("default_user".data) inputsA) ∧
      out.pendingFinal = rewrite2 (templateOf contentA)
        (computeRemaining (entriesOf contentA) slotC9) ∧
      (computeRemaining (entriesOf contentA) slotC9 ≠ [] →
        out.pendingFinal = templateOf contentA ++
          joinSep (computeRemaining (entriesOf contentA) slotC9) ++
          (if threeDash.isSuffixOf
              (joinSep (computeRemaining (entriesOf contentA) slotC9))
            then [] else sepL)) ∧
      (computeRemaining (entriesOf contentA) slotC9 = [] →
        pyStrip (templateOf contentA) ≠ [] →
        out.pendingFinal = templateOf contentA ++
          (if (templateOf contentA).getLast? = some '\n' then []
            else ['\n']) ++ noPendingLine) ∧
      (computeRemaining (entriesOf contentA) slotC9 = [] →
        pyStrip (templateOf contentA) = [] →
        out.pendingFinal = templateOf contentA ++ noPendingLine) ∧
      (templateOf contentA = [] →
        computeRemaining (entriesOf contentA) slotC9 = [] →
        out.pendingAfter1 =
          freshTemplate (runUser ("default_user".data) inputsA) ∧
        out.pendingFinal = noPendingLine) :=
  C9_second_rewrite_wins envA createC9 ("default_user".data) 3 inputsA
    contentA slotC9 [commitC9] 3 (by decide) (by decide)

/-! ### C1 — the rewrite is an in-place truncating overwrite, not an
atomic replacement -/

/-- C1 as stated is false of the code: `main` rewrites the pending log by
`open(pending_path, "w")` followed by direct writes — no temporary file
and no atomic replace.  Concretely, in the completed two-entry declined
run, a crash after the truncating open but before the first write (zero
chunks flushed) leaves the pending log empty — neither its full pre-run
content nor its full post-run content. -/
theorem C1_counterexample :
    runPipeline envA (fun _ => none) ("default_user".data) 3 inputsB
        contentB =
      some (RunResult.wrote {
        pendingAfter1 := rewrite1 (templateOf contentB)
          (computeRemaining (entriesOf contentB) [none, none])
          (runUser ("default_user".data) inputsB)
        pendingFinal := rewrite2 (templateOf contentB)
          (computeRemaining (entriesOf contentB) [none, none])
        committedAppend :=
          if ([] : List LC) ≠ [] then
            some (committedAppendText []) else none }) ∧
    (rewrite2Chunks (templateOf contentB)
        (computeRemaining (entriesOf contentB) [none, none])).flatten =
      rewrite2 (templateOf contentB)
        (computeRemaining (entriesOf contentB) [none, none]) ∧
    contentAfterWrites
        (rewrite2Chunks (templateOf contentB)
          (computeRemaining (entriesOf contentB) [none, none])) 0 = [] ∧
    ([] : LC) ≠ contentB ∧
    ([] : LC) ≠ rewrite2 (templateOf contentB)
      (computeRemaining (entriesOf contentB) [none, none]) := by
  refine ⟨by decide, by decide, rfl, by decide, by decide⟩

/-- C1 amended: the final rewrite truncates the pending log in place and
then issues its writes directly, so the writes concatenate to exactly the
final content, a crash before the first write leaves the file empty, and
every intermediate crash state is a strict-information-loss prefix of the
final content rather than the pre-run content. -/
theorem C1_amended (t : LC) (rem : List LC) :
    (rewrite2Chunks t rem).flatten = rewrite2 t rem ∧
    contentAfterWrites (rewrite2Chunks t rem) 0 = [] ∧
    ∀ k, ∃ s, contentAfterWrites (rewrite2Chunks t rem) k ++ s =
      rewrite2 t rem := by
  have hfl : (rewrite2Chunks t rem).flatten = rewrite2 t rem := by
    by_cases h1 : rem ≠ []
    · by_cases h2 : t.length + (joinSep rem).length ≠ t.length
      · by_cases h3 : threeDash.isSuffixOf (joinSep rem)
        · simp [rewrite2Chunks, rewrite2, h1, h2, h3]
        · simp [rewrite2Chunks, rewrite2, h1, h2, h3]
      · simp [rewrite2Chunks, rewrite2, h1, h2]
    · by_cases h2 : pyStrip t ≠ []
      · by_cases h3 : t.getLast? = some '\n'
        · simp [rewrite2Chunks, rewrite2, h1, h2, h3]
        · simp [rewrite2Chunks, rewrite2, h1, h2, h3]
      · simp [rewrite2Chunks, rewrite2, h1, h2]
  refine ⟨hfl, rfl, ?_⟩
  intro k
  refine ⟨((rewrite2Chunks t rem).drop k).flatten, ?_⟩
  rw [contentAfterWrites, ← List.flatten_append, List.take_append_drop,
    hfl]

/-! ### C8 — string lemmas for the re-parse of the rewritten log -/

theorem isPrefixOf_append_left {p u : LC} (v : LC)
    (h : p.isPrefixOf u = true) : p.isPrefixOf (u ++ v) = true := by
  rcases isPrefixOf_iff.mp h with ⟨t, rfl⟩
  exact isPrefixOf_iff.mpr ⟨t ++ v, (List.append_assoc p t v).symm⟩

theorem isPrefixOf_append_of_le {p u v : LC}
    (h : p.isPrefixOf (u ++ v) = true) (hle : p.length ≤ u.length) :
    p.isPrefixOf u = true := by
  rcases isPrefixOf_iff.mp h with ⟨t, ht⟩
  refine isPrefixOf_iff.mpr ⟨t.take (u.length - p.length), ?_⟩
  have h1 : (p ++ t).take u.length = (u ++ v).take u.length := by rw [ht]
  rw [List.take_left] at h1
  rw [List.take_append_eq_append_take, List.take_of_length_le hle] at h1
  exact h1

theorem findSub_append_left {pat a : LC} (b : LC) {m : Nat}
    (h : findSub pat a = some m) : findSub pat (a ++ b) = some m := by
  obtain ⟨hpre, hmin⟩ := findSub_eq_some_iff.mp h
  have hb := findSub_bound h
  refine findSub_eq_some_iff.mpr ⟨?_, ?_⟩
  · have hdrop : (a ++ b).drop m = a.drop m ++ b := by
      rw [List.drop_append_eq_append_drop,
        Nat.sub_eq_zero_of_le (by omega), List.drop_zero]
    rw [hdrop]
    exact isPrefixOf_append_left b hpre
  · intro j hj
    by_contra hc
    have hpj := (Bool.not_eq_false _).mp hc
    have hdropj : (a ++ b).drop j = a.drop j ++ b := by
      rw [List.drop_append_eq_append_drop,
        Nat.sub_eq_zero_of_le (by omega), List.drop_zero]
    rw [hdropj] at hpj
    have hlen : pat.length ≤ (a.drop j).length := by
      rw [List.length_drop]; omega
    have hin := isPrefixOf_append_of_le hpj hlen
    rw [hmin j hj] at hin
    cases hin

theorem findSub_take_ge {pat x : LC} {j n : Nat}
    (h : findSub pat x = some j) (hn : j + pat.length ≤ n) :
    findSub pat (x.take n) = some j := by
  obtain ⟨hpre, hmin⟩ := findSub_eq_some_iff.mp h
  refine findSub_eq_some_iff.mpr ⟨?_, ?_⟩
  · rw [List.drop_take]
    rcases isPrefixOf_iff.mp hpre with ⟨t, ht⟩
    refine isPrefixOf_iff.mpr ⟨t.take (n - j - pat.length), ?_⟩
    have h2 : (pat ++ t).take (n - j) =
        pat.take (n - j) ++ t.take (n - j - pat.length) :=
      List.take_append_eq_append_take ..
    rw [← ht, h2]
    exact congrArg (fun z => z ++ t.take (n - j - pat.length))
      (List.take_of_length_le (by omega)).symm
  · intro j2 hj2
    by_contra hc
    have hpj := (Bool.not_eq_false _).mp hc
    rw [List.drop_take] at hpj
    have hin := isPrefixOf_of_take hpj
    rw [hmin j2 hj2] at hin
    cases hin

/-- The first separator in `e ++ sepL ++ r` for a separator-free `e` is
exactly at the boundary: an occurrence straddling the boundary would put
one of the separator's dashes where its newline must be. -/
theorem findSub_sep_boundary {e r : LC} (he : ¬ Occurs sepL e) :
    findSub sepL (e ++ (sepL ++ r)) = some e.length := by
  refine findSub_eq_some_iff.mpr ⟨?_, ?_⟩
  · rw [List.drop_left]
    exact isPrefixOf_iff.mpr ⟨r, rfl⟩
  · intro j hj
    have h4 : sepL.length = 4 := rfl
    by_contra hc
    have hpj := (Bool.not_eq_false _).mp hc
    by_cases hj4 : j + sepL.length ≤ e.length
    · refine he (occurs_iff_exists_drop.mpr ⟨j, ?_⟩)
      have hdropj : (e ++ (sepL ++ r)).drop j = e.drop j ++ (sepL ++ r) := by
        rw [List.drop_append_eq_append_drop,
          Nat.sub_eq_zero_of_le (by omega), List.drop_zero]
      rw [hdropj] at hpj
      exact isPrefixOf_append_of_le hpj (by rw [List.length_drop]; omega)
    · rcases isPrefixOf_iff.mp hpj with ⟨t, ht⟩
      have hchar : (sepL ++ t)[(3 : Nat)]? =
          ((e ++ (sepL ++ r)).drop j)[(3 : Nat)]? := by rw [ht]
      rw [List.getElem?_append_left (by omega), List.getElem?_drop,
        List.getElem?_append_right (by omega)] at hchar
      have hsl : sepL[(3 : Nat)]? = some '\n' := rfl
      rw [hsl] at hchar
      have hcases : j + 3 - e.length = 0 ∨ j + 3 - e.length = 1 ∨
          j + 3 - e.length = 2 := by omega
      rcases hcases with h0 | h0 | h0 <;> rw [h0] at hchar <;>
        rw [List.getElem?_append_left (by decide)] at hchar <;>
        exact absurd hchar (by decide)

/-- The end marker contains no newline, starts with `<` and ends with `>`,
so no occurrence of it can straddle a separator block. -/
theorem markerL_not_occurs_append {e r : LC}
    (he : ¬ Occurs markerL e) (hr : ¬ Occurs markerL r) :
    ¬ Occurs markerL (e ++ (sepL ++ r)) := by
  intro hocc
  rcases occurs_iff_exists_drop.mp hocc with ⟨i, hi⟩
  have h4 : sepL.length = 4 := rfl
  have h21 : markerL.length = 21 := rfl
  by_cases hin : i + markerL.length ≤ e.length
  · refine he (occurs_iff_exists_drop.mpr ⟨i, ?_⟩)
    have hdropi : (e ++ (sepL ++ r)).drop i = e.drop i ++ (sepL ++ r) := by
      rw [List.drop_append_eq_append_drop,
        Nat.sub_eq_zero_of_le (by omega), List.drop_zero]
    rw [hdropi] at hi
    exact isPrefixOf_append_of_le hi (by rw [List.length_drop]; omega)
  · by_cases hie : e.length ≤ i
    · by_cases hi4 : e.length + sepL.length ≤ i
      · refine hr (occurs_iff_exists_drop.mpr
          ⟨i - (e.length + sepL.length), ?_⟩)
        have hlen2 : (e ++ sepL).length = e.length + sepL.length :=
          List.length_append e sepL
        have hdr : (e ++ (sepL ++ r)).drop i =
            r.drop (i - (e.length + sepL.length)) := by
          rw [← List.append_assoc, List.drop_append_eq_append_drop,
            List.drop_eq_nil_of_le (by rw [hlen2]; omega),
            List.nil_append, hlen2]
        rw [hdr] at hi
        exact hi
      · rcases isPrefixOf_iff.mp hi with ⟨t, ht⟩
        have hchar : (markerL ++ t)[(0 : Nat)]? =
            ((e ++ (sepL ++ r)).drop i)[(0 : Nat)]? := by rw [ht]
        rw [List.getElem?_append_left (by omega), List.getElem?_drop,
          List.getElem?_append_right (by omega)] at hchar
        have hm0 : markerL[(0 : Nat)]? = some '<' := rfl
        rw [hm0] at hchar
        have hcases : i + 0 - e.length = 0 ∨ i + 0 - e.length = 1 ∨
            i + 0 - e.length = 2 ∨ i + 0 - e.length = 3 := by omega
        rcases hcases with h0 | h0 | h0 | h0 <;> rw [h0] at hchar <;>
          rw [List.getElem?_append_left (by decide)] at hchar <;>
          exact absurd hchar (by decide)
    · rcases isPrefixOf_iff.mp hi with ⟨t, ht⟩
      by_cases hnw : e.length + 3 ≤ i + 20
      · have hchar : (markerL ++ t)[e.length + 3 - i]? =
            ((e ++ (sepL ++ r)).drop i)[e.length + 3 - i]? := by rw [ht]
        rw [List.getElem?_append_left (by omega),
          List.getElem?_drop] at hchar
        have hidx : i + (e.length + 3 - i) = e.length + 3 := by omega
        rw [hidx, List.getElem?_append_right (by omega)] at hchar
        have hidx2 : e.length + 3 - e.length = 3 := by omega
        rw [hidx2, List.getElem?_append_left (by omega)] at hchar
        have hsl : sepL[(3 : Nat)]? = some '\n' := rfl
        rw [hsl] at hchar
        have hmem := List.getElem?_mem hchar
        exact absurd hmem (by decide)
      · have hchar : (markerL ++ t)[(20 : Nat)]? =
            ((e ++ (sepL ++ r)).drop i)[(20 : Nat)]? := by rw [ht]
        rw [List.getElem?_append_left (by omega), List.getElem?_drop,
          List.getElem?_append_right (by omega)] at hchar
        have hm20 : markerL[(20 : Nat)]? = some '>' := rfl
        rw [hm20] at hchar
        have hcases : i + 20 - e.length = 0 ∨ i + 20 - e.length = 1 ∨
            i + 20 - e.length = 2 := by omega
        rcases hcases with h0 | h0 | h0 <;> rw [h0] at hchar <;>
          rw [List.getElem?_append_left (by decide)] at hchar <;>
          exact absurd hchar (by decide)

/-- A run of newlines before the haystack shifts the position of the first
separator by its length: the separator starts with a dash. -/
theorem findSub_sep_newline_skip :
    ∀ nl : LC, (∀ c ∈ nl, c = '\n') → ∀ x : LC,
      findSub sepL (nl ++ x) =
        (findSub sepL x).map (fun i => nl.length + i) := by
  intro nl
  induction nl with
  | nil =>
    intro _ x
    simp
  | cons c cs ih =>
    intro hc x
    have hc0 : c = '\n' := hc c (by simp)
    subst hc0
    rw [List.cons_append, findSub]
    rw [if_neg ?hpre]
    case hpre =>
      intro habs
      rcases isPrefixOf_iff.mp habs with ⟨t, ht⟩
      simp [sepL] at ht
    rw [ih (fun c2 hc2 => hc c2 (by simp [hc2])) x]
    cases hfx : findSub sepL x with
    | none => rfl
    | some j =>
      simp only [Option.map_some', List.length_cons, Option.some.injEq]
      omega

theorem isPrefixOf_false_of_length_lt {p u : LC} (h : u.length < p.length) :
    p.isPrefixOf u = false := by
  by_contra hc
  have := isPrefixOf_length_le ((Bool.not_eq_false _).mp hc)
  omega

theorem threeDash_isPrefixOf_append_newline (u w : LC) :
    threeDash.isPrefixOf (u ++ '\n' :: w) = threeDash.isPrefixOf u := by
  by_cases hu : threeDash.length ≤ u.length
  · cases h1 : threeDash.isPrefixOf u with
    | true => exact isPrefixOf_append_left _ h1
    | false =>
      by_contra hc
      have hpre := (Bool.not_eq_false _).mp hc
      have hin := isPrefixOf_append_of_le hpre hu
      rw [h1] at hin
      cases hin
  · have h3 : threeDash.length = 3 := rfl
    have hr : threeDash.isPrefixOf u = false :=
      isPrefixOf_false_of_length_lt (by omega)
    rw [hr]
    by_contra hc
    have hpre := (Bool.not_eq_false _).mp hc
    rcases isPrefixOf_iff.mp hpre with ⟨t, ht⟩
    have hchar : (threeDash ++ t)[u.length]? = (u ++ '\n' :: w)[u.length]?
      := by rw [ht]
    rw [List.getElem?_append_left (by omega),
      List.getElem?_append_right le_rfl, Nat.sub_self,
      List.getElem?_cons_zero] at hchar
    have hcases : u.length = 0 ∨ u.length = 1 ∨ u.length = 2 := by omega
    rcases hcases with h0 | h0 | h0 <;> rw [h0] at hchar <;>
      exact absurd hchar (by decide)

/-- Whether the joined text ends in `---` only depends on what follows the
last full separator block. -/
theorem threeDash_isSuffixOf_append (a j : LC) :
    threeDash.isSuffixOf ((a ++ sepL) ++ j) = threeDash.isSuffixOf j := by
  show threeDash.reverse.isPrefixOf ((a ++ sepL) ++ j).reverse =
    threeDash.reverse.isPrefixOf j.reverse
  rw [List.reverse_append, List.reverse_append]
  have hsr : sepL.reverse = '\n' :: threeDash := by decide
  have h3 : threeDash.reverse = threeDash := by decide
  rw [hsr, h3, List.cons_append]
  exact threeDash_isPrefixOf_append_newline j.reverse
    (threeDash ++ a.reverse)

/-- The conditional trailing separator of the final rewrite (`main`, lines
636-653): nothing when the joined entries already end in `---`, the full
separator otherwise. -/
def tailSepOf (es : List LC) : LC :=
  if threeDash.isSuffixOf (joinSep es) then [] else sepL

theorem tailSepOf_cons {e : LC} {rest : List LC} (h : rest ≠ []) :
    tailSepOf (e :: rest) = tailSepOf rest := by
  rw [tailSepOf, tailSepOf, joinSep_cons h, threeDash_isSuffixOf_append]

theorem rewrite2_render {t : LC} {es : List LC} (hes : es ≠ [])
    (hne : ∀ e ∈ es, e ≠ []) :
    rewrite2 t es = t ++ (joinSep es ++ tailSepOf es) := by
  have hj : joinSep es ≠ [] := joinSep_ne_nil hes hne
  have hlen : (joinSep es).length ≠ 0 :=
    fun h0 => hj (List.length_eq_zero.mp h0)
  rw [rewrite2, if_pos hes, if_pos (by omega), tailSepOf]

theorem occurs_marker_nil : ¬ Occurs markerL [] := by
  rintro ⟨s, t, h⟩
  rcases List.append_eq_nil.mp h with ⟨h1, -⟩
  rcases List.append_eq_nil.mp h1 with ⟨-, h2⟩
  exact absurd h2 (by decide)

/-- No occurrence of the end marker anywhere in the rendered entry section:
within an entry is excluded by hypothesis, and no straddle fits. -/
theorem marker_not_in_render :
    ∀ es : List LC, (∀ e ∈ es, ¬ Occurs markerL e) → es ≠ [] →
      ¬ Occurs markerL (joinSep es ++ tailSepOf es) := by
  intro es
  induction es with
  | nil => intro _ h; exact absurd rfl h
  | cons e rest ih =>
    intro hno _
    cases rest with
    | nil =>
      by_cases hsuf : threeDash.isSuffixOf (joinSep [e])
      · rw [tailSepOf, if_pos hsuf, List.append_nil]
        exact hno e (by simp)
      · rw [tailSepOf, if_neg hsuf]
        show ¬ Occurs markerL (e ++ sepL)
        have hnil : e ++ sepL = e ++ (sepL ++ []) := by simp
        rw [hnil]
        exact markerL_not_occurs_append (hno e (by simp)) occurs_marker_nil
    | cons r2 rs2 =>
      have hrne : (r2 :: rs2 : List LC) ≠ [] := by simp
      rw [joinSep_cons hrne, tailSepOf_cons hrne, List.append_assoc,
        List.append_assoc]
      exact markerL_not_occurs_append (hno e (by simp))
        (ih (fun x hx => hno x (by simp [hx])) hrne)

/-- Splitting the rendered entry section recovers exactly the entries:
each is stripped, non-empty and separator-free, and the conditional
trailing separator reproduces itself. -/
theorem splitEntries_roundtrip :
    ∀ es : List LC,
      (∀ e ∈ es, pyStrip e = e ∧ e ≠ [] ∧ ¬ Occurs sepL e) →
      splitEntries (joinSep es ++ tailSepOf es) = es := by
  intro es
  induction es with
  | nil => intro _; decide
  | cons e rest ih =>
    intro hfacts
    obtain ⟨hse, hne0, hocc⟩ := hfacts e (by simp)
    have hisEmpty : e.isEmpty = false := by
      cases e with
      | nil => exact absurd rfl hne0
      | cons a t => rfl
    cases rest with
    | nil =>
      by_cases hsuf : threeDash.isSuffixOf (joinSep [e])
      · rw [tailSepOf, if_pos hsuf, List.append_nil]
        show splitEntries e = [e]
        rw [splitEntries,
          splitSep_of_none (findSub_none_iff_not_occurs.mpr hocc)]
        simp [hse, hisEmpty]
      · rw [tailSepOf, if_neg hsuf]
        show splitEntries (e ++ sepL) = [e]
        have hb : e ++ sepL = e ++ (sepL ++ []) := by simp
        have hfs : findSub sepL (e ++ sepL) = some e.length := by
          rw [hb]; exact findSub_sep_boundary hocc
        rw [splitEntries, splitSep_of_some hfs]
        have h1 : (e ++ sepL).take e.length = e := List.take_left e sepL
        have h2 : (e ++ sepL).drop (e.length + sepL.length) = [] :=
          List.drop_eq_nil_of_le (by simp)
        have h3 : splitSep ([] : LC) = [[]] := rfl
        have h4 : pyStrip ([] : LC) = [] := rfl
        rw [h1, h2, h3]
        simp [hse, hisEmpty, h4]
    | cons r2 rs2 =>
      have hrne : (r2 :: rs2 : List LC) ≠ [] := by simp
      rw [joinSep_cons hrne, tailSepOf_cons hrne]
      have hassoc : (e ++ sepL ++ joinSep (r2 :: rs2)) ++
          tailSepOf (r2 :: rs2) =
          e ++ (sepL ++ (joinSep (r2 :: rs2) ++ tailSepOf (r2 :: rs2)))
          := by
        simp [List.append_assoc]
      rw [hassoc]
      have hfs := findSub_sep_boundary
        (r := joinSep (r2 :: rs2) ++ tailSepOf (r2 :: rs2)) hocc
      rw [splitEntries, splitSep_of_some hfs]
      have h1 : (e ++ (sepL ++ (joinSep (r2 :: rs2) ++
          tailSepOf (r2 :: rs2)))).take e.length = e := List.take_left ..
      have h2 : (e ++ (sepL ++ (joinSep (r2 :: rs2) ++
          tailSepOf (r2 :: rs2)))).drop (e.length + sepL.length) =
          joinSep (r2 :: rs2) ++ tailSepOf (r2 :: rs2) := by
        rw [← List.append_assoc, ← List.length_append, List.drop_left]
      rw [h1, h2, List.map_cons, hse, List.filter_cons,
        if_pos (by rw [hisEmpty]; rfl)]
      show e :: splitEntries (joinSep (r2 :: rs2) ++ tailSepOf (r2 :: rs2))
        = e :: r2 :: rs2
      rw [ih (fun x hx => hfacts x (by simp [hx]))]

theorem partitionLog_marker_none {c : LC}
    (hm : findSub markerL c = none) : partitionLog c = ([], c) := by
  simp only [partitionLog, hm]

theorem dropWhile_length_le (p : Char → Bool) (l : List Char) :
    (l.dropWhile p).length ≤ l.length := by
  induction l with
  | nil => simp
  | cons a t ih =>
    rw [List.dropWhile_cons]
    split
    · exact ih.trans (by simp)
    · simp

/-- A string fixed by `strip` does not start with whitespace. -/
theorem strip_fixed_dropWhile {e : LC} (h : pyStrip e = e) :
    e.dropWhile isPySpace = e := by
  obtain ⟨t, ht⟩ := rdropWhile_to_pre isPySpace (e.dropWhile isPySpace)
  rw [pyStrip] at h
  rw [h] at ht
  have hlen := dropWhile_length_le isPySpace e
  have hlc := congrArg List.length ht
  rw [List.length_append] at hlc
  have ht0 : t = [] := List.length_eq_zero.mp (by omega)
  subst ht0
  rw [List.append_nil] at ht
  exact ht.symm

theorem strip_fixed_takeWhile_newline {e : LC} (hs : pyStrip e = e)
    (hne : e ≠ []) : e.takeWhile (fun x => x = '\n') = [] := by
  have hd := strip_fixed_dropWhile hs
  rw [List.dropWhile_eq_self_iff] at hd
  cases e with
  | nil => exact absurd rfl hne
  | cons a t =>
    have hna : ¬ isPySpace a = true := by
      have hh := hd (by simp)
      simpa using hh
    rw [List.takeWhile_cons,
      if_neg (by
        intro hcon
        have ha : a = '\n' := by simpa using hcon
        exact hna (by rw [ha]; rfl))]

theorem takeWhile_newline_append {x : LC}
    (hx : x.takeWhile (fun c => c = '\n') = []) :
    ∀ nl : LC, (∀ c ∈ nl, c = '\n') →
      (nl ++ x).takeWhile (fun c => c = '\n') = nl := by
  intro nl
  induction nl with
  | nil => intro _; simpa using hx
  | cons c cs ih =>
    intro hnl
    have hc0 : c = '\n' := hnl c (by simp)
    subst hc0
    rw [List.cons_append, List.takeWhile_cons, if_pos (by decide)]
    rw [ih (fun d hd => hnl d (by simp [hd]))]

theorem take_length_takeWhile (p : Char → Bool) (l : List Char) :
    l.take (l.takeWhile p).length = l.takeWhile p := by
  have h := List.takeWhile_append_dropWhile (p := p) (l := l)
  calc l.take (l.takeWhile p).length
      = (l.takeWhile p ++ l.dropWhile p).take (l.takeWhile p).length := by
        rw [h]
    _ = l.takeWhile p := List.take_left ..

theorem getLast?_append_ne {l₁ l₂ : List Char} (h : l₂ ≠ []) :
    (l₁ ++ l₂).getLast? = l₂.getLast? := by
  rw [List.getLast?_append]
  cases hl : l₂.getLast? with
  | none => exact absurd (List.getLast?_eq_none_iff.mp hl) h
  | some a => rfl

theorem getLast?_mem {l : List Char} {a : Char}
    (h : l.getLast? = some a) : a ∈ l := by
  rw [List.getLast?_eq_head?_reverse] at h
  exact (List.mem_reverse).mp (List.mem_of_mem_head? h)

/-- The template partition when the end marker is present but no separator
follows it: the template extends over the marker and the immediately
following newline run, with a final newline ensured. -/
theorem partitionLog_sep_none {c : LC} {m : Nat}
    (hm : findSub markerL c = some m)
    (hj : findSub sepL (c.drop (m + markerL.length)) = none) :
    partitionLog c =
      (if (c.take (m + markerL.length +
            ((c.drop (m + markerL.length)).takeWhile
              (fun x => x = '\n')).length)).getLast? = some '\n'
        then c.take (m + markerL.length +
            ((c.drop (m + markerL.length)).takeWhile
              (fun x => x = '\n')).length)
        else c.take (m + markerL.length +
            ((c.drop (m + markerL.length)).takeWhile
              (fun x => x = '\n')).length) ++ ['\n'],
       c.drop (m + markerL.length +
            ((c.drop (m + markerL.length)).takeWhile
              (fun x => x = '\n')).length)) := by
  simp only [partitionLog, hm, hj]

/-- Re-reading the pending log written by the final rewrite: either no
entry remains parseable, so a second run returns before writing, or the
re-partition and re-split produce a template and entry list whose final
rewrite reproduces the content byte-for-byte. -/
theorem rewrite2_reparse {content : LC}
    (hne : entriesOf content ≠ []) :
    entriesOf (rewrite2 (templateOf content) (entriesOf content)) = [] ∨
    rewrite2
      (templateOf (rewrite2 (templateOf content) (entriesOf content)))
      (entriesOf (rewrite2 (templateOf content) (entriesOf content))) =
    rewrite2 (templateOf content) (entriesOf content) := by
  have hfacts : ∀ e ∈ entriesOf content,
      pyStrip e = e ∧ e ≠ [] ∧ ¬ Occurs sepL e := by
    intro e he
    obtain ⟨h1, h2, h3, -⟩ := splitEntries_mem e he
    exact ⟨h1, h2, h3⟩
  have hene : ∀ e ∈ entriesOf content, e ≠ [] :=
    fun e he => (hfacts e he).2.1
  have hrender := rewrite2_render (t := templateOf content) hne hene
  obtain ⟨e0, tail, hes⟩ : ∃ e0 tail, entriesOf content = e0 :: tail := by
    cases hc : entriesOf content with
    | nil => exact absurd hc hne
    | cons a l => exact ⟨a, l, rfl⟩
  obtain ⟨hs0, hn0, ho0⟩ := hfacts e0 (by rw [hes]; simp)
  cases hm : findSub markerL content with
  | none =>
    have hT : templateOf content = [] := by
      rw [templateOf, partitionLog_marker_none hm]
    have hp2 : ¬ Occurs markerL (partitionLog content).2 := by
      rw [partitionLog_marker_none hm]
      exact findSub_none_iff_not_occurs.mp hm
    have hnoE : ∀ e ∈ entriesOf content, ¬ Occurs markerL e :=
      fun e he => splitEntries_not_occurs hp2 e he
    have hnomark2 : ¬ Occurs markerL
        (joinSep (entriesOf content) ++ tailSepOf (entriesOf content)) :=
      marker_not_in_render (entriesOf content) hnoE hne
    have hm1 : findSub markerL (rewrite2 (templateOf content)
        (entriesOf content)) = none := by
      rw [hrender, hT, List.nil_append]
      exact findSub_none_iff_not_occurs.mpr hnomark2
    have hpart1 := partitionLog_marker_none hm1
    have hent1 : entriesOf (rewrite2 (templateOf content)
        (entriesOf content)) = entriesOf content := by
      have hsp : splitEntries (rewrite2 (templateOf content)
          (entriesOf content)) = entriesOf content := by
        rw [hrender, hT, List.nil_append]
        exact splitEntries_roundtrip (entriesOf content) hfacts
      show splitEntries (partitionLog _).2 = _
      rw [hpart1]
      exact hsp
    have htemp1 : templateOf (rewrite2 (templateOf content)
        (entriesOf content)) = [] := by
      show (partitionLog _).1 = _
      rw [hpart1]
    refine Or.inr ?_
    rw [htemp1, hent1, hT]
  | some m =>
    have hm21 : markerL.length = 21 := rfl
    have h4 : sepL.length = 4 := rfl
    have hmb := findSub_bound hm
    cases hj : findSub sepL (content.drop (m + markerL.length)) with
    | some j =>
      have hjb := findSub_bound hj
      rw [List.length_drop] at hjb
      have hT : templateOf content =
          content.take (m + markerL.length + j + sepL.length) := by
        rw [templateOf, partitionLog_sep_some hm hj]
      have hTlen : (templateOf content).length =
          m + markerL.length + j + sepL.length := by
        rw [hT, List.length_take]
        omega
      have hmT : findSub markerL (templateOf content) = some m := by
        rw [hT]
        exact findSub_take_ge hm (by omega)
      have hm1 : findSub markerL (rewrite2 (templateOf content)
          (entriesOf content)) = some m := by
        rw [hrender]
        exact findSub_append_left _ hmT
      have hdropT : (templateOf content).drop (m + markerL.length) =
          (content.drop (m + markerL.length)).take (j + sepL.length) := by
        rw [hT, List.drop_take]
        congr 1
        omega
      have hsT : findSub sepL ((templateOf content).drop
          (m + markerL.length)) = some j := by
        rw [hdropT]
        exact findSub_take_ge hj le_rfl
      have hdrop1 : (rewrite2 (templateOf content)
          (entriesOf content)).drop (m + markerL.length) =
          (templateOf content).drop (m + markerL.length) ++
            (joinSep (entriesOf content) ++
              tailSepOf (entriesOf content)) := by
        rw [hrender, List.drop_append_eq_append_drop,
          Nat.sub_eq_zero_of_le (by omega), List.drop_zero]
      have hs1 : findSub sepL ((rewrite2 (templateOf content)
          (entriesOf content)).drop (m + markerL.length)) = some j := by
        rw [hdrop1]
        exact findSub_append_left _ hsT
      have hpart1 := partitionLog_sep_some hm1 hs1
      have htake1 : (rewrite2 (templateOf content)
          (entriesOf content)).take
            (m + markerL.length + j + sepL.length) = templateOf content
          := by
        rw [hrender, ← hTlen, List.take_left]
      have hdropP1 : (rewrite2 (templateOf content)
          (entriesOf content)).drop
            (m + markerL.length + j + sepL.length) =
          joinSep (entriesOf content) ++ tailSepOf (entriesOf content)
          := by
        rw [hrender, ← hTlen, List.drop_left]
      have htemp1 : templateOf (rewrite2 (templateOf content)
          (entriesOf content)) = templateOf content := by
        show (partitionLog _).1 = _
        rw [hpart1]
        exact htake1
      have hent1 : entriesOf (rewrite2 (templateOf content)
          (entriesOf content)) = entriesOf content := by
        show splitEntries (partitionLog _).2 = _
        rw [hpart1]
        show splitEntries ((rewrite2 (templateOf content)
          (entriesOf content)).drop
            (m + markerL.length + j + sepL.length)) = _
        rw [hdropP1]
        exact splitEntries_roundtrip (entriesOf content) hfacts
      exact Or.inr (by rw [htemp1, hent1])
    | none =>
      obtain ⟨tw, htw⟩ : ∃ tw, (content.drop
          (m + markerL.length)).takeWhile (fun x => x = '\n') = tw :=
        ⟨_, rfl⟩
      have hpart := partitionLog_sep_none hm hj
      rw [htw] at hpart
      have hnl : ∀ c ∈ tw, c = '\n' := by
        intro c hc
        rw [← htw] at hc
        have hmem := List.mem_takeWhile_imp hc
        simpa using hmem
      have htake_tw : (content.drop (m + markerL.length)).take tw.length
          = tw := by
        rw [← htw]
        exact take_length_takeWhile ..
      have hlam : (content.take (m + markerL.length)).length =
          m + markerL.length := by
        rw [List.length_take]
        omega
      obtain ⟨t1, ht1⟩ := isPrefixOf_iff.mp (findSub_eq_some_iff.mp hm).1
      have htakeam : content.take (m + markerL.length) =
          content.take m ++ markerL := by
        have hsplitc : content.take m ++ (markerL ++ t1) = content := by
          rw [ht1, List.take_append_drop]
        have hlm : (content.take m).length = m := by
          rw [List.length_take]
          omega
        have h1 : (content.take m ++ (markerL ++ t1)).take
            (m + markerL.length) =
            (content.take m).take (m + markerL.length) ++
              (markerL ++ t1).take (m + markerL.length -
                (content.take m).length) :=
          List.take_append_eq_append_take ..
        rw [hsplitc] at h1
        rw [h1, List.take_of_length_le (by omega), hlm]
        have h2 : m + markerL.length - m = markerL.length := by omega
        rw [h2, List.take_left]
      have hall : ∃ nl : LC,
          templateOf content =
            content.take (m + markerL.length) ++ nl ∧
          nl ≠ [] ∧ (∀ c ∈ nl, c = '\n') := by
        by_cases hk0 : tw = []
        · refine ⟨['\n'], ?_, by simp, by simp⟩
          have h0 : m + markerL.length + tw.length =
              m + markerL.length := by
            rw [hk0]
            rfl
          have hcond : ¬ ((content.take (m + markerL.length +
              tw.length)).getLast? = some '\n') := by
            rw [h0, htakeam, getLast?_append_ne (by decide)]
            decide
          show (partitionLog content).1 = _
          rw [hpart]
          show (if (content.take (m + markerL.length +
                tw.length)).getLast? = some '\n'
            then content.take (m + markerL.length + tw.length)
            else content.take (m + markerL.length + tw.length) ++ ['\n'])
            = _
          rw [if_neg hcond, h0]
        · refine ⟨tw, ?_, hk0, hnl⟩
          have hsplit : content.take (m + markerL.length + tw.length) =
              content.take (m + markerL.length) ++ tw := by
            rw [List.take_add, htake_tw]
          have hlasttw : tw.getLast? = some '\n' := by
            cases hgl : tw.getLast? with
            | none => exact absurd (List.getLast?_eq_none_iff.mp hgl) hk0
            | some a => rw [hnl a (getLast?_mem hgl)]
          have hcond : (content.take (m + markerL.length +
              tw.length)).getLast? = some '\n' := by
            rw [hsplit, getLast?_append_ne hk0]
            exact hlasttw
          show (partitionLog content).1 = _
          rw [hpart]
          show (if (content.take (m + markerL.length +
                tw.length)).getLast? = some '\n'
            then content.take (m + markerL.length + tw.length)
            else content.take (m + markerL.length + tw.length) ++ ['\n'])
            = _
          rw [if_pos hcond]
          exact hsplit
      obtain ⟨nl, hTsplit, hnlne, hnlall⟩ := hall
      have hTdrop : (templateOf content).drop (m + markerL.length) = nl
          := by
        rw [hTsplit, List.drop_append_eq_append_drop,
          List.drop_eq_nil_of_le (le_of_eq hlam), List.nil_append, hlam,
          Nat.sub_self, List.drop_zero]
      have hTlen : (templateOf content).length =
          m + markerL.length + nl.length := by
        rw [hTsplit, List.length_append, hlam]
      have hTlast : (templateOf content).getLast? = some '\n' := by
        rw [hTsplit, getLast?_append_ne hnlne]
        cases hgl : nl.getLast? with
        | none => exact absurd (List.getLast?_eq_none_iff.mp hgl) hnlne
        | some a => rw [hnlall a (getLast?_mem hgl)]
      have hmT : findSub markerL (templateOf content) = some m := by
        rw [hTsplit, htakeam]
        have hmtk : findSub markerL (content.take m ++ markerL) = some m
            := by
          have hin : findSub markerL (content.take
              (m + markerL.length)) = some m :=
            findSub_take_ge hm le_rfl
          rw [htakeam] at hin
          exact hin
        rw [List.append_assoc]
        have hmtk2 : findSub markerL (content.take m ++ markerL) = some m
            := hmtk
        have := findSub_append_left nl hmtk
        rw [List.append_assoc] at this
        exact this
      have hm1 : findSub markerL (rewrite2 (templateOf content)
          (entriesOf content)) = some m := by
        rw [hrender]
        exact findSub_append_left _ hmT
      have hdrop1 : (rewrite2 (templateOf content)
          (entriesOf content)).drop (m + markerL.length) =
          nl ++ (joinSep (entriesOf content) ++
            tailSepOf (entriesOf content)) := by
        rw [hrender, List.drop_append_eq_append_drop,
          Nat.sub_eq_zero_of_le (by omega), List.drop_zero, hTdrop]
      have hskip : findSub sepL ((rewrite2 (templateOf content)
          (entriesOf content)).drop (m + markerL.length)) =
          (findSub sepL (joinSep (entriesOf content) ++
            tailSepOf (entriesOf content))).map
            (fun i => nl.length + i) := by
        rw [hdrop1]
        exact findSub_sep_newline_skip nl hnlall _
      cases tail with
      | cons r2 rs2 =>
        have htine : (r2 :: rs2 : List LC) ≠ [] := by simp
        have hXassoc : joinSep (entriesOf content) ++
            tailSepOf (entriesOf content) =
            e0 ++ (sepL ++ (joinSep (r2 :: rs2) ++
              tailSepOf (r2 :: rs2))) := by
          rw [hes, joinSep_cons htine, tailSepOf_cons htine]
          simp [List.append_assoc]
        have hfsX : findSub sepL (joinSep (entriesOf content) ++
            tailSepOf (entriesOf content)) = some e0.length := by
          rw [hXassoc]
          exact findSub_sep_boundary ho0
        have hs1 : findSub sepL ((rewrite2 (templateOf content)
            (entriesOf content)).drop (m + markerL.length)) =
            some (nl.length + e0.length) := by
          rw [hskip, hfsX]
          rfl
        have hpart1 := partitionLog_sep_some hm1 hs1
        have hgroup : rewrite2 (templateOf content) (entriesOf content) =
            ((templateOf content ++ e0) ++ sepL) ++
              (joinSep (r2 :: rs2) ++ tailSepOf (r2 :: rs2)) := by
          rw [hrender, hXassoc]
          simp [List.append_assoc]
        have hcutlen : ((templateOf content ++ e0) ++ sepL).length =
            m + markerL.length + (nl.length + e0.length) + sepL.length
            := by
          simp only [List.length_append]
          omega
        have htake1 : (rewrite2 (templateOf content)
            (entriesOf content)).take (m + markerL.length +
              (nl.length + e0.length) + sepL.length) =
            (templateOf content ++ e0) ++ sepL := by
          rw [hgroup, ← hcutlen, List.take_left]
        have hdropP1 : (rewrite2 (templateOf content)
            (entriesOf content)).drop (m + markerL.length +
              (nl.length + e0.length) + sepL.length) =
            joinSep (r2 :: rs2) ++ tailSepOf (r2 :: rs2) := by
          rw [hgroup, ← hcutlen, List.drop_left]
        have htemp1 : templateOf (rewrite2 (templateOf content)
            (entriesOf content)) = (templateOf content ++ e0) ++ sepL
            := by
          show (partitionLog _).1 = _
          rw [hpart1]
          exact htake1
        have htailfacts : ∀ e ∈ (r2 :: rs2 : List LC),
            pyStrip e = e ∧ e ≠ [] ∧ ¬ Occurs sepL e := by
          intro e he
          exact hfacts e (by rw [hes]; simp [he])
        have hent1 : entriesOf (rewrite2 (templateOf content)
            (entriesOf content)) = r2 :: rs2 := by
          show splitEntries (partitionLog _).2 = _
          rw [hpart1]
          show splitEntries ((rewrite2 (templateOf content)
            (entriesOf content)).drop (m + markerL.length +
              (nl.length + e0.length) + sepL.length)) = _
          rw [hdropP1]
          exact splitEntries_roundtrip (r2 :: rs2) htailfacts
        refine Or.inr ?_
        rw [htemp1, hent1,
          rewrite2_render htine (fun e he => (htailfacts e he).2.1),
          hgroup]
      | nil =>
        by_cases hsuf : threeDash.isSuffixOf e0 = true
        · have htS : tailSepOf [e0] = [] := by
            rw [tailSepOf]
            exact if_pos hsuf
          have hXe : joinSep (entriesOf content) ++
              tailSepOf (entriesOf content) = e0 := by
            rw [hes, htS, List.append_nil]
            rfl
          have hs1 : findSub sepL ((rewrite2 (templateOf content)
              (entriesOf content)).drop (m + markerL.length)) = none
              := by
            rw [hskip, hXe, findSub_none_iff_not_occurs.mpr ho0]
            rfl
          have hpart1 := partitionLog_sep_none hm1 hs1
          have htwP1 : ((rewrite2 (templateOf content)
              (entriesOf content)).drop (m + markerL.length)).takeWhile
              (fun x => x = '\n') = nl := by
            rw [hdrop1, hXe]
            exact takeWhile_newline_append
              (strip_fixed_takeWhile_newline hs0 hn0) nl hnlall
          rw [htwP1] at hpart1
          have htake1 : (rewrite2 (templateOf content)
              (entriesOf content)).take
                (m + markerL.length + nl.length) = templateOf content
              := by
            rw [hrender, ← hTlen, List.take_left]
          have hcond1 : ((rewrite2 (templateOf content)
              (entriesOf content)).take (m + markerL.length +
                nl.length)).getLast? = some '\n' := by
            rw [htake1]
            exact hTlast
          have htemp1 : templateOf (rewrite2 (templateOf content)
              (entriesOf content)) = templateOf content := by
            show (partitionLog _).1 = _
            rw [hpart1]
            show (if ((rewrite2 (templateOf content)
                  (entriesOf content)).take (m + markerL.length +
                    nl.length)).getLast? = some '\n'
              then (rewrite2 (templateOf content)
                (entriesOf content)).take
                  (m + markerL.length + nl.length)
              else (rewrite2 (templateOf content)
                (entriesOf content)).take
                  (m + markerL.length + nl.length) ++ ['\n']) = _
            rw [if_pos hcond1]
            exact htake1
          have hdropP1 : (rewrite2 (templateOf content)
              (entriesOf content)).drop
                (m + markerL.length + nl.length) = e0 := by
            rw [hrender, ← hTlen, List.drop_left, hXe]
          have hent1 : entriesOf (rewrite2 (templateOf content)
              (entriesOf content)) = [e0] := by
            show splitEntries (partitionLog _).2 = _
            rw [hpart1]
            show splitEntries ((rewrite2 (templateOf content)
              (entriesOf content)).drop
                (m + markerL.length + nl.length)) = _
            rw [hdropP1]
            have he0X : joinSep [e0] ++ tailSepOf [e0] = e0 := by
              rw [htS, List.append_nil]
              rfl
            have hrt := splitEntries_roundtrip [e0]
              (by
                intro e he
                have he2 : e = e0 := by simpa using he
                subst he2
                exact ⟨hs0, hn0, ho0⟩)
            rw [he0X] at hrt
            exact hrt
          refine Or.inr ?_
          rw [htemp1, hent1, hes]
        · have htS : tailSepOf [e0] = sepL := by
            rw [tailSepOf]
            exact if_neg (fun hcon => hsuf hcon)
          have hXe : joinSep (entriesOf content) ++
              tailSepOf (entriesOf content) = e0 ++ (sepL ++ []) := by
            rw [hes, htS]
            show e0 ++ sepL = _
            simp
          have hfsX : findSub sepL (joinSep (entriesOf content) ++
              tailSepOf (entriesOf content)) = some e0.length := by
            rw [hXe]
            exact findSub_sep_boundary ho0
          have hs1 : findSub sepL ((rewrite2 (templateOf content)
              (entriesOf content)).drop (m + markerL.length)) =
              some (nl.length + e0.length) := by
            rw [hskip, hfsX]
            rfl
          have hpart1 := partitionLog_sep_some hm1 hs1
          have hgroup : rewrite2 (templateOf content)
              (entriesOf content) =
              ((templateOf content ++ e0) ++ sepL) ++ [] := by
            rw [hrender, hXe]
            simp [List.append_assoc]
          have hcutlen : ((templateOf content ++ e0) ++ sepL).length =
              m + markerL.length + (nl.length + e0.length) + sepL.length
              := by
            simp only [List.length_append]
            omega
          have hdropP1 : (rewrite2 (templateOf content)
              (entriesOf content)).drop (m + markerL.length +
                (nl.length + e0.length) + sepL.length) = [] := by
            rw [hgroup, ← hcutlen, List.drop_left]
          refine Or.inl ?_
          show splitEntries (partitionLog _).2 = _
          rw [hpart1]
          show splitEntries ((rewrite2 (templateOf content)
            (entriesOf content)).drop (m + markerL.length +
              (nl.length + e0.length) + sepL.length)) = _
          rw [hdropP1]
          decide

/-- With the operator answering `no` to every confirmation, every entry is
declined: no slot is filled and nothing is committed. -/
theorem mainLoop_decline {env : TrackerEnv}
    {createIssue : IssueDict → Option LC} {user : LC} {fuel : Nat}
    {inputs : Nat → LC} :
    ∀ (ts : List LC) (n : Nat), (∀ t ∈ ts, pyStrip t ≠ []) →
      (∀ m, n ≤ m → pyStrip (inputs m) = "no".data) →
      ∃ n', mainLoop env createIssue user fuel inputs n ts =
        some (ts.map (fun _ => none), [], n') := by
  intro ts
  induction ts with
  | nil =>
    intro n _ _
    exact ⟨n, rfl⟩
  | cons t ts ih =>
    intro n hstrip hdecl
    have htstrip : pyStrip t ≠ [] := hstrip t (by simp)
    cases hp : parsePendingEntry t with
    | none =>
      obtain ⟨n', hrec⟩ := ih n (fun e he => hstrip e (by simp [he]))
        hdecl
      refine ⟨n', ?_⟩
      simp only [mainLoop]
      rw [if_neg htstrip, hp]
      dsimp only
      rw [hrec]
      rfl
    | some data =>
      have hsum := parsePendingEntry_summary_ne_nil hp
      have hproc := @process_decline data env createIssue user fuel
        inputs n hsum (hdecl n le_rfl)
      obtain ⟨n', hrec⟩ := ih (n + 1)
        (fun e he => hstrip e (by simp [he]))
        (fun m hm => hdecl m (by omega))
      refine ⟨n', ?_⟩
      simp only [mainLoop]
      rw [if_neg htstrip, hp]
      dsimp only
      rw [hproc]
      dsimp only
      rw [hrec]
      rfl

/-- An always-decline run on a log with entries writes back the template
and all the entries, committing nothing. -/
theorem runPipeline_decline {env : TrackerEnv}
    {createIssue : IssueDict → Option LC} {defaultUser : LC} {fuel : Nat}
    {inputs : Nat → LC} {content : LC}
    (hne : entriesOf content ≠ [])
    (hdecl : ∀ m, 1 ≤ m → pyStrip (inputs m) = "no".data) :
    runPipeline env createIssue defaultUser fuel inputs content =
      some (RunResult.wrote {
        pendingAfter1 := rewrite1 (templateOf content)
          (entriesOf content) (runUser defaultUser inputs)
        pendingFinal := rewrite2 (templateOf content) (entriesOf content)
        committedAppend := none }) := by
  obtain ⟨n', hml⟩ := @mainLoop_decline env createIssue
    (runUser defaultUser inputs) fuel inputs (entriesOf content) 1
    entriesOf_strip hdecl
  have hw := runPipeline_wrote hne hml
  rw [hw]
  simp only [computeRemaining_all_none]
  rfl

/-- C8: running the pipeline a second time on the pending log written by a
completed always-decline run, declining again, leaves the pending log
byte-identical: the second run either finds no entries and returns before
writing, or rewrites exactly the same bytes. -/
theorem C8_decline_idempotent
    (env : TrackerEnv) (createIssue : IssueDict → Option LC)
    (defaultUser : LC) (fuel : Nat) (inputs : Nat → LC) (content : LC)
    (res1 : RunResult)
    (hdecl : ∀ n, 1 ≤ n → pyStrip (inputs n) = "no".data)
    (hrun1 : runPipeline env createIssue defaultUser fuel inputs content
      = some res1) :
    ∃ res2 : RunResult,
      runPipeline env createIssue defaultUser fuel inputs
        (finalPendingOf res1 content) = some res2 ∧
      finalPendingOf res2 (finalPendingOf res1 content) =
        finalPendingOf res1 content := by
  by_cases hne : entriesOf content = []
  · simp only [runPipeline, if_pos hne, Option.some.injEq] at hrun1
    subst hrun1
    refine ⟨RunResult.untouched, ?_, rfl⟩
    show runPipeline env createIssue defaultUser fuel inputs content = _
    rw [runPipeline, if_pos hne]
  · have hrp := @runPipeline_decline env createIssue defaultUser fuel
      inputs content hne hdecl
    rw [hrp, Option.some.injEq] at hrun1
    subst hrun1
    by_cases hne2 : entriesOf (rewrite2 (templateOf content)
        (entriesOf content)) = []
    · refine ⟨RunResult.untouched, ?_, rfl⟩
      show runPipeline env createIssue defaultUser fuel inputs
        (rewrite2 (templateOf content) (entriesOf content)) = _
      rw [runPipeline, if_pos hne2]
    · have hgood := (rewrite2_reparse hne).resolve_left hne2
      have hrp2 := @runPipeline_decline env createIssue defaultUser fuel
        inputs (rewrite2 (templateOf content) (entriesOf content)) hne2
        hdecl
      refine ⟨RunResult.wrote {
          pendingAfter1 := rewrite1
            (templateOf (rewrite2 (templateOf content)
              (entriesOf content)))
            (entriesOf (rewrite2 (templateOf content)
              (entriesOf content)))
            (runUser defaultUser inputs)
          pendingFinal := rewrite2
            (templateOf (rewrite2 (templateOf content)
              (entriesOf content)))
            (entriesOf (rewrite2 (templateOf content)
              (entriesOf content)))
          committedAppend := none }, ?_, ?_⟩
      · show runPipeline env createIssue defaultUser fuel inputs
          (rewrite2 (templateOf content) (entriesOf content)) = _
        exact hrp2
      · show rewrite2
            (templateOf (rewrite2 (templateOf content)
              (entriesOf content)))
            (entriesOf (rewrite2 (templateOf content)
              (entriesOf content))) =
          rewrite2 (templateOf content) (entriesOf content)
        exact hgood

/-- Concrete instance of `C8_decline_idempotent`: two entries, both
declined in the first run; the second run on the rewritten log finds the
same two entries, declines them again, and writes identical bytes. -/
theorem C8_decline_idempotent_witness :
    ∃ res2 : RunResult,
      runPipeline envA (fun _ => none) ("default_user".data) 3 inputsB
        (finalPendingOf (RunResult.wrote {
          pendingAfter1 := rewrite1 (templateOf contentB)
            (entriesOf contentB) (runUser ("default_user".data) inputsB)
          pendingFinal := rewrite2 (templateOf contentB)
            (entriesOf contentB)
          committedAppend := none }) contentB) = some res2 ∧
      finalPendingOf res2 (finalPendingOf (RunResult.wrote {
          pendingAfter1 := rewrite1 (templateOf contentB)
            (entriesOf contentB) (runUser ("default_user".data) inputsB)
          pendingFinal := rewrite2 (templateOf contentB)
            (entriesOf contentB)
          committedAppend := none }) contentB) =
        finalPendingOf (RunResult.wrote {
          pendingAfter1 := rewrite1 (templateOf contentB)
            (entriesOf contentB) (runUser ("default_user".data) inputsB)
          pendingFinal := rewrite2 (templateOf contentB)
            (entriesOf contentB)
          committedAppend := none }) contentB :=
  C8_decline_idempotent envA (fun _ => none) ("default_user".data) 3
    inputsB contentB _
    (fun n hn => by
      have h0 : n ≠ 0 := by omega
      simp only [inputsB, if_neg h0]
      decide)
    (by decide)

/-! ### C7 — the duplicate gate -/

/-- C7: for an entry processed under a resolved epic, the duplicate check
flags exactly the existing issues under that epic whose summary equals the
candidate title case-insensitively (exact text); when that set is
non-empty the operator is asked before creation (default `no`), and any
non-`yes` answer retains the entry as skipped.  The outcome is the same
for every creation oracle — `createIssue` is never called. -/
theorem C7_duplicate_gate
    (data : EntryData) (env : TrackerEnv) (user : LC) (fuel : Nat)
    (inputs : Nat → LC) (n n2 : Nat) (ek : LC) (en : LC)
    (hsum : data.draft_summary ≠ [])
    (hyes : pyLower (getUserInputVal (inputs n) (some ("yes".data))) =
      "yes".data)
    (hepic : epicPhase env user fuel inputs (n + 1) =
      some ((some ek, en), n2))
    (hdup : (env.storiesInEpic ek).filter
      (fun s => pyLower s.summary == pyLower data.draft_summary) ≠ [])
    (hdecl : pyLower (getUserInputVal (inputs n2) (some ("no".data))) ≠
      "yes".data) :
    (∀ s, s ∈ (env.storiesInEpic ek).filter
        (fun s => pyLower s.summary == pyLower data.draft_summary) ↔
      (s ∈ env.storiesInEpic ek ∧
        pyLower s.summary = pyLower data.draft_summary)) ∧
    (∀ createIssue, process_single_entry data env createIssue user fuel
      inputs n = some ((false, some skippedLC), n2 + 1)) ∧
    (∀ createIssue1 createIssue2,
      process_single_entry data env createIssue1 user fuel inputs n =
        process_single_entry data env createIssue2 user fuel inputs n) := by
  have hiss : env.storiesInEpic ek ≠ [] := by
    intro h
    rw [h] at hdup
    simp at hdup
  have hd : dupPhase env data.draft_summary (some ek) inputs n2 =
      (decide (pyLower (getUserInputVal (inputs n2) (some ("no".data))) =
        "yes".data), n2 + 1) := by
    simp only [dupPhase]
    rw [if_pos hiss, if_pos hdup]
  have hdfalse : (decide (pyLower (getUserInputVal (inputs n2)
      (some ("no".data))) = "yes".data)) = false := by
    simpa using hdecl
  have hb : ∀ createIssue, process_single_entry data env createIssue user
      fuel inputs n = some ((false, some skippedLC), n2 + 1) := by
    intro createIssue
    simp only [process_single_entry, if_neg hsum, hyes]
    rw [if_neg (by decide), if_neg (by simp), hepic]
    dsimp only
    rw [hd, hdfalse]
    rfl
  refine ⟨?_, hb, fun c1 c2 => by rw [hb c1, hb c2]⟩
  intro s
  simp [List.mem_filter]

def envC7 : TrackerEnv :=
  { projectEpics := [{ key := "ROIA-100".data, summary := "Epic A".data }]
    projectVersions := []
    createEpicResult := fun _ => none
    storiesInEpic := fun _ =>
      [{ key := "ROIA-5".data, summary := "Add CSV export".data }]
    transitionsResult := fun _ => Except.ok []
    executeTransitionResult := fun _ _ => Except.ok () }

/-- Operator script for the duplicate-gate witness: approve the entry,
select epic 1, decline at the duplicate prompt. -/
def inputsC7 : Nat → LC := fun n =>
  if n = 0 then "yes".data else if n = 1 then "1".data else "no".data

/-- Concrete instance of `C7_duplicate_gate`: an epic holding an issue
titled `Add CSV export` and an entry titled `add csv EXPORT`; the operator
declines at the duplicate prompt and the entry is skipped, whatever the
creation oracle would have answered. -/
theorem C7_duplicate_gate_witness :
    (∀ s, s ∈ (envC7.storiesInEpic ("ROIA-100".data)).filter
        (fun s => pyLower s.summary == pyLower ("add csv EXPORT".data)) ↔
      (s ∈ envC7.storiesInEpic ("ROIA-100".data) ∧
        pyLower s.summary = pyLower ("add csv EXPORT".data))) ∧
    (∀ createIssue, process_single_entry
      { draft_summary := "add csv EXPORT".data, typeField := none,
        userField := none, descriptionField := none,
        acceptanceField := none }
      envC7 createIssue ("amy".data) 2 inputsC7 0 =
      some ((false, some skippedLC), 3)) ∧
    (∀ createIssue1 createIssue2,
      process_single_entry
        { draft_summary := "add csv EXPORT".data, typeField := none,
          userField := none, descriptionField := none,
          acceptanceField := none }
        envC7 createIssue1 ("amy".data) 2 inputsC7 0 =
      process_single_entry
        { draft_summary := "add csv EXPORT".data, typeField := none,
          userField := none, descriptionField := none,
          acceptanceField := none }
        envC7 createIssue2 ("amy".data) 2 inputsC7 0) :=
  C7_duplicate_gate
    { draft_summary := "add csv EXPORT".data, typeField := none,
      userField := none, descriptionField := none,
      acceptanceField := none }
    envC7 ("amy".data) 2 inputsC7 0 2 ("ROIA-100".data) ("Epic A".data)
    (by decide) (by decide) (by decide) (by decide) (by decide)

/-! ### C5 — transition non-fatality -/

/-- C5: when issue creation succeeds, (a) with the issue's available
transitions listed, if no transition name contains `Done`
case-insensitively then `transition_jira_issue` reports failure; (b) when
it finds the first such match it executes exactly that transition and
reports its outcome; and (c) whenever the transition step fails, the entry
is nevertheless committed, and the status recorded in its committed record
is the creation-time default `Open` rather than the target status. -/
theorem C5_transition_nonfatal (data : EntryData) (env : TrackerEnv)
    (createIssue : IssueDict → Option LC) (user issueType epicName : LC)
    (epicKey : Option LC) (key : LC)
    (hcreate : createIssue (mkIssueDict data.draft_summary
        (data.descriptionField.getD defaultDescription)
        (data.acceptanceField.getD defaultAcceptance) user epicKey) =
        some key) :
    (∀ ts, env.transitionsResult key = Except.ok ts →
      (∀ t ∈ ts,
        containsSub (pyLower ("Done".data)) (pyLower t.name) = false) →
      transition_jira_issue env key "Done".data = false) ∧
    (∀ ts tr, env.transitionsResult key = Except.ok ts →
      ts.find? (fun t =>
        containsSub (pyLower ("Done".data)) (pyLower t.name)) = some tr →
      transition_jira_issue env key "Done".data =
        (match env.executeTransitionResult key tr.id with
          | Except.ok _ => true
          | Except.error _ => false)) ∧
    (transition_jira_issue env key "Done".data = false →
      creationPhase data env createIssue user issueType epicKey epicName =
        (true, some (committedEntryStr epicName epicKey issueType key
          data.draft_summary ("Open".data)
          (data.descriptionField.getD defaultDescription)
          (data.acceptanceField.getD defaultAcceptance)))) := by
  refine ⟨?_, ?_, ?_⟩
  · intro ts hts hnone
    simp only [transition_jira_issue, hts]
    rw [List.find?_eq_none.mpr (by intro t ht; simpa using hnone t ht)]
  · intro ts tr hts hfind
    simp only [transition_jira_issue, hts, hfind]
  · intro hfail
    simp only [creationPhase, hcreate, hfail]
    rw [if_neg (by simp [hfail])]

/-- Concrete instance of `C5_transition_nonfatal`: a tracker whose only
available transition is `Reopen` (no case-insensitive `Done` substring)
fails the transition, and the entry is committed with status `Open`. -/
theorem C5_transition_nonfatal_witness :
    creationPhase
      { draft_summary := "x".data, typeField := none, userField := none,
        descriptionField := none, acceptanceField := none }
      { projectEpics := [], projectVersions := [],
        createEpicResult := fun _ => none, storiesInEpic := fun _ => [],
        transitionsResult := fun _ =>
          Except.ok [{ id := "11".data, name := "Reopen".data }],
        executeTransitionResult := fun _ _ => Except.ok () }
      (fun _ => some ("ROIA-1".data)) ("amy".data) ("Story".data) none
      ("N/A".data) =
      (true, some (committedEntryStr ("N/A".data) none ("Story".data)
        ("ROIA-1".data) ("x".data) ("Open".data) defaultDescription
        defaultAcceptance)) := by
  refine (C5_transition_nonfatal
    { draft_summary := "x".data, typeField := none, userField := none,
      descriptionField := none, acceptanceField := none }
    { projectEpics := [], projectVersions := [],
      createEpicResult := fun _ => none, storiesInEpic := fun _ => [],
      transitionsResult := fun _ =>
        Except.ok [{ id := "11".data, name := "Reopen".data }],
      executeTransitionResult := fun _ _ => Except.ok () }
    (fun _ => some ("ROIA-1".data)) ("amy".data) ("Story".data)
    ("N/A".data) none ("ROIA-1".data) rfl).2.2 ?_
  exact (C5_transition_nonfatal
    { draft_summary := "x".data, typeField := none, userField := none,
      descriptionField := none, acceptanceField := none }
    { projectEpics := [], projectVersions := [],
      createEpicResult := fun _ => none, storiesInEpic := fun _ => [],
      transitionsResult := fun _ =>
        Except.ok [{ id := "11".data, name := "Reopen".data }],
      executeTransitionResult := fun _ _ => Except.ok () }
    (fun _ => some ("ROIA-1".data)) ("amy".data) ("Story".data)
    ("N/A".data) none ("ROIA-1".data) rfl).1
    [{ id := "11".data, name := "Reopen".data }] rfl (by decide)

/-! ### C6 — the category enum -/

/-- C6 counterexample: the recognised category pair is `{Story, Bug}`, not
`{Story, Defect}` — the explicit value `Defect` is not used as a distinct
category but coerced to `Story` with the unsupported-type warning fired,
while `bug` (any casing) is the value kept as the second category. -/
theorem C6_defect_not_recognized :
    determineIssueType (some ("Defect".data)) = ("Story".data, true) ∧
    determineIssueType (some ("defect".data)) = ("Story".data, true) ∧
    determineIssueType (some ("bug".data)) = ("Bug".data, false) := by
  decide

/-- C6 amended: for every parsed entry the computed category is drawn from
`{Story, Bug}`: an absent `Type:` defaults to `Story` without warning; a
value capitalising to `Bug` is used as `Bug` and one capitalising to
`Story` as `Story`, both without warning; any other value — including
`Defect` — is coerced to `Story` with a warning.  Moreover the creation
call's issue dictionary carries issue type `Story` regardless: the
pipeline sets only the connector's logging-only `issue_type_name`
parameter, never `issue_type`. -/
theorem C6_amended (tf : Option LC) :
    ((determineIssueType tf).1 = "Story".data ∨
      (determineIssueType tf).1 = "Bug".data) ∧
    (tf = none → determineIssueType tf = ("Story".data, false)) ∧
    (∀ v, tf = some v → pyCapitalize v = "Bug".data →
      determineIssueType tf = ("Bug".data, false)) ∧
    (∀ v, tf = some v → pyCapitalize v = "Story".data →
      determineIssueType tf = ("Story".data, false)) ∧
    (∀ v, tf = some v → pyCapitalize v ≠ "Bug".data →
      pyCapitalize v ≠ "Story".data →
      determineIssueType tf = ("Story".data, true)) ∧
    (∀ s d a u e, (mkIssueDict s d a u e).issuetype = "Story".data) := by
  refine ⟨?_, ?_, ?_, ?_, ?_, fun _ _ _ _ _ => rfl⟩
  · simp only [determineIssueType]
    split
    · rename_i hc
      rcases hc with h | h
      · left; exact h
      · right; exact h
    · left; rfl
  · rintro rfl
    decide
  · rintro v rfl hv
    simp [determineIssueType, hv]
  · rintro v rfl hv
    simp [determineIssueType, hv]
  · rintro v rfl hv1 hv2
    simp [determineIssueType, hv1, hv2]

/-- Concrete instance of `C6_amended`: `bUg` is recognised as `Bug`. -/
theorem C6_amended_witness :
    determineIssueType (some ("bUg".data)) = ("Bug".data, false) :=
  (C6_amended (some ("bUg".data))).2.2.1 ("bUg".data) rfl (by decide)

end ChangelogPipeline
